import Mathlib

/-!
Shallow embedding of the symbolic core of `forensics_engine.py`
(repository AuditTrailGPT): regex-driven parsing of financial-crime audit
logs in two formats (flat "KAGGLE" tabular alerts and "AMLSIM" laundering
blocks), a stable timestamp sort, and summary aggregation.

Modelling conventions:
* Python strings are modelled as `List Char` (`Str`).  Python `str.strip`
  family is modelled over the ASCII whitespace characters
  (space, tab, newline, carriage return, vertical tab, form feed); the
  inputs treated by the claims contain no exotic Unicode whitespace.
* The three module-level regexes (`KAGGLE_PATTERN`, `BEGIN_PATTERN`,
  `END_PATTERN`, `TX_PATTERN`) are implemented as deterministic
  character-list parsers reproducing Python `re` leftmost/backtracking
  semantics at the places where it matters: all patterns are `^`-anchored
  (so `search` = match at position 0), greedy classes are followed by
  disjoint characters (no backtracking needed), the lazy groups `(.*?)`
  try the shortest skip first, and the one spot where `\s*` genuinely
  backtracks (before the lazy alert-type group) is modelled by trying the
  longest whitespace munch first (`wsLazy`).  `re.IGNORECASE` is modelled
  by ASCII case folding (every literal in the patterns is ASCII); `\w` and
  `\d` are modelled by their ASCII classes.
* Python `float` values are modelled as exact fractions (`PyFloat`):
  exact for the decimal literals appearing in the claims; the aggregate
  claims proved about the block parser compare two runs of the same
  function, so the numeric model is irrelevant there.  `int(x)` on a
  float is truncation toward zero.
* Python exceptions escaping `extract_causal_chain` (only possible from
  `int(amount_str.replace(',',''))` when the matched amount group contains
  no digit) are modelled by `Option`: `none` = exception, `some` = the
  returned document.  `json.dumps` serialization is dropped: the output is
  modelled as the structured value it serializes (the encoding is
  injective on this data).
* Python `list.sort(key=...)` (Timsort, stable) is modelled by a stable
  insertion sort on the same key.
-/

set_option maxRecDepth 8000

namespace AuditTrailGPT

abbrev Str := List Char

/-- Python whitespace for `str.strip` / `\s` (ASCII subset). -/
def isSpace (c : Char) : Bool :=
  c.toNat = 32 || c.toNat = 9 || c.toNat = 10 || c.toNat = 13 ||
  c.toNat = 11 || c.toNat = 12

/-- Python `str.lstrip()`. -/
def lstrip (s : Str) : Str := s.dropWhile isSpace

/-- Python `str.rstrip()`. -/
def rstrip (s : Str) : Str := (s.reverse.dropWhile isSpace).reverse

/-- Python `str.strip()`. -/
def pstrip (s : Str) : Str := rstrip (lstrip s)

/-- Python `str.split('\n')`: every occurrence of `'\n'` separates
segments; the empty string yields `[""]`. -/
def splitNl : Str → List Str
  | [] => [[]]
  | c :: cs =>
    if c = '\n' then [] :: splitNl cs
    else
      match splitNl cs with
      | [] => [[c]]
      | s :: rest => (c :: s) :: rest

/-- ASCII-lowercased code point, for `re.IGNORECASE` comparisons. -/
def lowerCode (c : Char) : ℕ :=
  if 65 ≤ c.toNat ∧ c.toNat ≤ 90 then c.toNat + 32 else c.toNat

/-- Case-insensitive character comparison (`re.IGNORECASE`). -/
def chEqCI (a b : Char) : Bool := lowerCode a = lowerCode b

/-- Match a literal pattern case-insensitively at the head of the input,
returning the rest of the input. -/
def litCI : Str → Str → Option Str
  | [], s => some s
  | _ :: _, [] => none
  | p :: ps, c :: cs => if chEqCI p c then litCI ps cs else none

/-- ASCII-uppercased character, for Python `str.upper()` on typology
names (which are ASCII `\w`/`-` material). -/
def upperAscii (c : Char) : Char :=
  if 97 ≤ c.toNat ∧ c.toNat ≤ 122 then Char.ofNat (c.toNat - 32) else c

/-- `\w` (ASCII model): letters, digits, underscore. -/
def isWordChar (c : Char) : Bool := c.isAlphanum || c = '_'

/-- Value of a digit string, most significant first. -/
def digitsToNat (s : Str) : ℕ :=
  s.foldl (fun a c => 10 * a + (c.toNat - 48)) 0

/-- Decimal representation of a natural number. -/
def natStr (n : ℕ) : Str := Nat.toDigits 10 n

/-- `\d{n}`: exactly `n` digits; returns the digits and the rest. -/
def takeDigitsN : ℕ → Str → Option (Str × Str)
  | 0, s => some ([], s)
  | _ + 1, [] => none
  | n + 1, c :: cs =>
    if c.isDigit then (takeDigitsN n cs).map (fun p => (c :: p.1, p.2))
    else none

/-- Strict lexicographic order on strings by code point (Python `<`). -/
def strLt : Str → Str → Bool
  | [], [] => false
  | [], _ :: _ => true
  | _ :: _, [] => false
  | a :: as_, b :: bs => if a.toNat = b.toNat then strLt as_ bs else a.toNat < b.toNat

/-- Lexicographic `≤` on strings by code point (Python `<=`). -/
def strLe : Str → Str → Bool
  | [], _ => true
  | _ :: _, [] => false
  | a :: as_, b :: bs => if a.toNat = b.toNat then strLe as_ bs else a.toNat < b.toNat

/-! ### The KAGGLE alert pattern

```
^\s*\d+\s*\|\s*(\d{4}-\d{2}-\d{2})\s*\|\s*Case\s*ID\s+(FC\d{6})\s*\|\s*
(.*?)\s+detected\s+involving\s+cross-border\s+entities,\s*
automated\s+alert\s+triggered\.\s*\|\s*Amount:\s*\$([\d,]+)
```
(`re.IGNORECASE`; used with `.search`, but the `^` anchor without
`re.MULTILINE` forces the match to start at position 0.)
-/

structure KaggleGroups where
  date : Str
  case_id : Str
  alert_type : Str
  amountStr : Str
deriving DecidableEq

/-- `\s*` followed by a literal. -/
def wsOpt (p : Str) (s : Str) : Option Str := litCI p (s.dropWhile isSpace)

/-- `\s+` followed by a literal. -/
def wsReq (p : Str) (s : Str) : Option Str :=
  match s with
  | c :: cs => if isSpace c then litCI p ((c :: cs).dropWhile isSpace) else none
  | [] => none

/-- `(\d{4}-\d{2}-\d{2})`: returns the captured date text and the rest. -/
def matchDateK (s : Str) : Option (Str × Str) :=
  match takeDigitsN 4 s with
  | none => none
  | some (y, s) =>
    match litCI ("-".data) s with
    | none => none
    | some s =>
      match takeDigitsN 2 s with
      | none => none
      | some (m, s) =>
        match litCI ("-".data) s with
        | none => none
        | some s =>
          match takeDigitsN 2 s with
          | none => none
          | some (d, s) => some (y ++ '-' :: m ++ '-' :: d, s)

/-- `(FC\d{6})`: returns the captured text (case preserved) and the rest. -/
def matchCaseId (s : Str) : Option (Str × Str) :=
  match litCI ("fc".data) s with
  | none => none
  | some s1 =>
    match takeDigitsN 6 s1 with
    | none => none
    | some (ds, r) => some (s.take 2 ++ ds, r)

/-- `Case\s*ID\s+(FC\d{6})` (the leading `Case` is consumed by the caller
via `wsOpt`): here `\s*ID\s+(FC\d{6})`. -/
def caseIdGroup (s : Str) : Option (Str × Str) :=
  match wsOpt ("id".data) s with
  | none => none
  | some s =>
    match s with
    | c :: cs =>
      if isSpace c then matchCaseId ((c :: cs).dropWhile isSpace) else none
    | [] => none

/-- The fixed tail after the lazy alert-type group:
`\s+detected\s+involving\s+cross-border\s+entities,\s*automated\s+alert`
`\s+triggered\.\s*\|\s*Amount:\s*\$([\d,]+)`; returns the amount group. -/
def kaggleTail (s : Str) : Option Str :=
  match wsReq ("detected".data) s with
  | none => none
  | some s =>
  match wsReq ("involving".data) s with
  | none => none
  | some s =>
  match wsReq ("cross-border".data) s with
  | none => none
  | some s =>
  match wsReq ("entities,".data) s with
  | none => none
  | some s =>
  match wsOpt ("automated".data) s with
  | none => none
  | some s =>
  match wsReq ("alert".data) s with
  | none => none
  | some s =>
  match wsReq ("triggered.".data) s with
  | none => none
  | some s =>
  match wsOpt ("|".data) s with
  | none => none
  | some s =>
  match wsOpt ("amount:".data) s with
  | none => none
  | some s =>
  match wsOpt ("$".data) s with
  | none => none
  | some s =>
    let amt := s.takeWhile (fun c => c.isDigit || c = ',')
    if amt = [] then none else some amt

/-- The lazy group `(.*?)` before `kaggleTail`: try the shortest skip
first (Python lazy-quantifier order); `.` does not match `'\n'`.
Returns (alert-type capture, amount capture).  (On empty input the tail
can never match — it starts with `\s+` — so that case is `none`
directly.) -/
def kaggleLazy (acc : Str) : Str → Option (Str × Str)
  | [] => none
  | c :: cs =>
    match kaggleTail (c :: cs) with
    | some amt => some (acc.reverse, amt)
    | none => if c = '\n' then none else kaggleLazy (c :: acc) cs

/-- `\s*(.*?)⟨tail⟩` with backtracking of the greedy `\s*`: the longest
whitespace munch is tried first; on failure one whitespace character is
handed back to the lazy group. -/
def wsLazy : Str → Option (Str × Str)
  | [] => kaggleLazy [] []
  | c :: cs =>
    if isSpace c then
      match wsLazy cs with
      | some r => some r
      | none => kaggleLazy [] (c :: cs)
    else kaggleLazy [] (c :: cs)

/-- `KAGGLE_PATTERN.search(line)` (anchored at position 0). -/
def kaggleSearch (line : Str) : Option KaggleGroups :=
  let s0 := line.dropWhile isSpace
  let d1 := s0.takeWhile Char.isDigit
  let s1 := s0.dropWhile Char.isDigit
  if d1 = [] then none else
  match wsOpt ("|".data) s1 with
  | none => none
  | some s2 =>
  match matchDateK (s2.dropWhile isSpace) with
  | none => none
  | some (date, s3) =>
  match wsOpt ("|".data) s3 with
  | none => none
  | some s4 =>
  match wsOpt ("case".data) s4 with
  | none => none
  | some s5 =>
  match caseIdGroup s5 with
  | none => none
  | some (cid, s6) =>
  match wsOpt ("|".data) s6 with
  | none => none
  | some s7 =>
  match wsLazy s7 with
  | none => none
  | some (atype, amt) => some ⟨date, cid, atype, amt⟩

/-- `int(amount_str.replace(',', ''))`: drop the thousands separators and
read the digits; Python raises `ValueError` (modelled `none`) when no
digit remains. -/
def parseIntCommas (s : Str) : Option ℤ :=
  let t := s.filter (fun c => !(c = ','))
  if t = [] then none
  else if t.all Char.isDigit then some (digitsToNat t) else none

/-! ### The AMLSIM block patterns

`BEGIN_PATTERN = ^BEGIN LAUNDERING ATTEMPT - (\w+(?:-\w+)*)` (IGNORECASE),
`END_PATTERN = ^END LAUNDERING ATTEMPT` (IGNORECASE),
`TX_PATTERN = ^(\d{4}/\d{2}/\d{2})\s+\d{2}:\d{2},.*?,\d+,\w+,([\d.]+),\w+`.
-/

/-- `(?:-\w+)*` greedily, fuelled by the input length (each round consumes
at least two characters); returns (matched text, rest). -/
def dashWordsF : ℕ → Str → Str × Str
  | 0, rest => ([], rest)
  | _n + 1, rest =>
    match rest with
    | '-' :: cs =>
      match cs.takeWhile isWordChar with
      | [] => ([], rest)
      | w =>
        let p := dashWordsF _n (cs.dropWhile isWordChar)
        ('-' :: w ++ p.1, p.2)
    | _ => ([], rest)

def dashWords (rest : Str) : Str × Str := dashWordsF rest.length rest

/-- `BEGIN_PATTERN.match`: returns the captured typology group. -/
def beginMatch (line : Str) : Option Str :=
  match litCI ("BEGIN LAUNDERING ATTEMPT - ".data) line with
  | none => none
  | some s =>
    match s.takeWhile isWordChar with
    | [] => none
    | w => some (w ++ (dashWords (s.dropWhile isWordChar)).1)

/-- `END_PATTERN.match` as a Boolean. -/
def endMatches (line : Str) : Bool :=
  (litCI ("END LAUNDERING ATTEMPT".data) line).isSome

/-- `group(1).upper().replace("-", "_")`. -/
def normalizeTy (s : Str) : Str :=
  s.map (fun c => if c = '-' then '_' else upperAscii c)

/-- The fixed tail of `TX_PATTERN` after the lazy group:
`,\d+,\w+,([\d.]+),\w+`; returns the amount group. -/
def txTail (s : Str) : Option Str :=
  match litCI (",".data) s with
  | none => none
  | some s =>
    match s.takeWhile Char.isDigit with
    | [] => none
    | _ =>
      match litCI (",".data) (s.dropWhile Char.isDigit) with
      | none => none
      | some s =>
        match s.takeWhile isWordChar with
        | [] => none
        | _ =>
          match litCI (",".data) (s.dropWhile isWordChar) with
          | none => none
          | some s =>
            match s.takeWhile (fun c => c.isDigit || c = '.') with
            | [] => none
            | amt =>
              match litCI (",".data) (s.dropWhile (fun c => c.isDigit || c = '.')) with
              | none => none
              | some s =>
                match s.takeWhile isWordChar with
                | [] => none
                | _ => some amt

/-- The lazy `.*?` of `TX_PATTERN` (shortest skip first, `.` ≠ `'\n'`;
the tail starts with a literal comma, so it cannot match empty input). -/
def txLazy : Str → Option Str
  | [] => none
  | c :: cs =>
    match txTail (c :: cs) with
    | some amt => some amt
    | none => if c = '\n' then none else txLazy cs

/-- `TX_PATTERN.match(line)`: returns (raw date group, amount group). -/
def txMatch (line : Str) : Option (Str × Str) :=
  match takeDigitsN 4 line with
  | none => none
  | some (y, s) =>
  match litCI ("/".data) s with
  | none => none
  | some s =>
  match takeDigitsN 2 s with
  | none => none
  | some (mo, s) =>
  match litCI ("/".data) s with
  | none => none
  | some s =>
  match takeDigitsN 2 s with
  | none => none
  | some (dy, s) =>
  match s with
  | [] => none
  | c :: cs =>
    if isSpace c then
      match takeDigitsN 2 ((c :: cs).dropWhile isSpace) with
      | none => none
      | some (_, s) =>
      match litCI (":".data) s with
      | none => none
      | some s =>
      match takeDigitsN 2 s with
      | none => none
      | some (_, s) =>
      match litCI (",".data) s with
      | none => none
      | some s =>
        match txLazy s with
        | none => none
        | some amt => some (y ++ '/' :: mo ++ '/' :: dy, amt)
    else none

/-- Exact fraction (numerator over positive denominator, not reduced):
the model of Python float values.  All values reached by the claims are
decimal fractions on which Python's binary floating point is exact, and
the theorems comparing two runs of the block parser use the same
arithmetic on both sides. -/
structure PyFloat where
  num : ℤ
  den : ℤ
deriving DecidableEq

def pfAdd (a b : PyFloat) : PyFloat :=
  ⟨a.num * b.den + b.num * a.den, a.den * b.den⟩

def pfZero : PyFloat := ⟨0, 1⟩

/-- Python `float()` applied to a `[\d.]+` match: succeeds iff the string
has at most one dot and at least one digit. -/
def parseFloatQ (s : Str) : Option PyFloat :=
  if (s.filter (fun c => c = '.')).length ≥ 2 then none
  else
    let ip := s.takeWhile Char.isDigit
    let fp := (s.dropWhile Char.isDigit).drop 1
    if ip = [] ∧ fp = [] then none
    else if (ip ++ fp).all Char.isDigit then
      some ⟨(digitsToNat ip : ℤ) * (10 : ℤ) ^ fp.length + (digitsToNat fp : ℤ),
            (10 : ℤ) ^ fp.length⟩
    else none

def isLeap (y : ℕ) : Bool := (y % 4 = 0 && !(y % 100 = 0)) || y % 400 = 0

def daysInMonth (y m : ℕ) : ℕ :=
  if m = 2 then (if isLeap y then 29 else 28)
  else if m = 4 ∨ m = 6 ∨ m = 9 ∨ m = 11 then 30 else 31

/-- `datetime.strptime(d, "%Y/%m/%d").strftime("%Y-%m-%d")`: validate the
calendar date, then re-emit with dashes.  (The captured groups are exactly
4+2+2 digits, so the reformatted text reuses them; years below 1000 would
print unpadded on the source platform, but no claim involves them.) -/
def normDate (dateS : Str) : Option Str :=
  let y := dateS.take 4
  let mo := (dateS.drop 5).take 2
  let dy := dateS.drop 8
  let yn := digitsToNat y
  let mn := digitsToNat mo
  let dn := digitsToNat dy
  if 1 ≤ yn ∧ 1 ≤ mn ∧ mn ≤ 12 ∧ 1 ≤ dn ∧ dn ≤ daysInMonth yn mn then
    some (y ++ '-' :: mo ++ '-' :: dy)
  else none

/-- Python `int()` truncation toward zero on a float value. -/
def pyTruncQ (q : PyFloat) : ℤ := q.num.tdiv q.den

/-! ### Events and the two parsers -/

inductive Details where
  | alert (date case_id alert_type : Str) (amount : ℤ)
  | blockAlert (date case_id alert_type : Str) (amount : ℤ)
      (transaction_count : ℕ) (period : Str)
  | unknownErr (error : Str)
deriving DecidableEq

structure Event where
  timestamp : Str
  event_type : Str
  raw_log : Str
  details : Details
deriving DecidableEq

def ALERT_TYPE_STR : Str := "FINANCIAL_CRIME_ALERT".data
def UNKNOWN_STR : Str := "UNKNOWN".data
def NA_STR : Str := "N/A".data

/-- `parse_kaggle_format`, one line at a time with 1-based numbering over
all lines (blank lines are numbered but skipped); `none` models the
uncaught `ValueError` from an all-comma amount group. -/
def parseKaggleGo : ℕ → List Str → Option (List Event)
  | _, [] => some []
  | n, l :: ls =>
    if pstrip l = [] then parseKaggleGo (n + 1) ls
    else
      match kaggleSearch l with
      | some g =>
        match parseIntCommas g.amountStr with
        | none => none
        | some amt =>
          (parseKaggleGo (n + 1) ls).map (fun rest =>
            { timestamp := g.date ++ " 00:00:00".data
              event_type := ALERT_TYPE_STR
              raw_log := rstrip l
              details := .alert g.date g.case_id (pstrip g.alert_type) amt } :: rest)
      | none =>
        (parseKaggleGo (n + 1) ls).map (fun rest =>
          { timestamp := NA_STR
            event_type := UNKNOWN_STR
            raw_log := rstrip l
            details := .unknownErr ("Unmatched line ".data ++ natStr n) } :: rest)

def parse_kaggle_format (lines : List Str) : Option (List Event) :=
  parseKaggleGo 1 lines

structure Tx where
  date : Str
  amount : PyFloat
deriving DecidableEq

/-- `f"{n:04d}"`: zero-pad the decimal representation to width 4. -/
def pad4 (n : ℕ) : Str :=
  List.replicate (4 - (natStr n).length) '0' ++ natStr n

/-- Insertion into a sorted duplicate-free list of strings; folding it
over a list models Python `sorted(set(...))` for strings. -/
def insertDedup (x : Str) : List Str → List Str
  | [] => [x]
  | y :: ys =>
    if strLt y x then y :: insertDedup x ys
    else if x = y then y :: ys
    else x :: y :: ys

/-- `summarize_block(typology, txs)`. -/
def summarize_block (typology : Str) (txs : List Tx) : List Event :=
  if txs = [] then []
  else
    let total_amount : PyFloat := txs.foldl (fun a t => pfAdd a t.amount) pfZero
    let dates := (txs.map Tx.date).foldr insertDedup []
    let start_date := dates.headD []
    let end_date := dates.getLastD []
    let case_id := "SYN".data ++ typology.take 2 ++ pad4 txs.length
    [{ timestamp := start_date ++ " 00:00:00".data
       event_type := ALERT_TYPE_STR
       raw_log := "Synthetic alert from ".data ++ typology ++ " block (".data ++
         natStr txs.length ++ " transactions)".data
       details := .blockAlert start_date case_id
         (typology.map (fun c => if c = '_' then '-' else c))
         (pyTruncQ total_amount) txs.length
         (start_date ++ " to ".data ++ end_date) }]

structure AmlState where
  typology : Option Str
  txs : List Tx
  events : List Event
deriving DecidableEq

def amlInit : AmlState := ⟨none, [], []⟩

/-- One iteration of the `parse_amlsim_format` loop (the loop strips the
line, then tries the begin marker, the end marker, and — inside a block —
the transaction grammar, in that order). -/
def amlStep (st : AmlState) (rawLine : Str) : AmlState :=
  match beginMatch (pstrip rawLine) with
  | some ty =>
    ⟨some (normalizeTy ty), [],
      match st.typology with
      | some t => if st.txs = [] then st.events else st.events ++ summarize_block t st.txs
      | none => st.events⟩
  | none =>
    if endMatches (pstrip rawLine) then
      match st.typology with
      | some t => ⟨none, [], st.events ++ summarize_block t st.txs⟩
      | none => st
    else
      match st.typology with
      | some _ =>
        match txMatch (pstrip rawLine) with
        | some (dateS, amtS) =>
          match parseFloatQ amtS, normDate dateS with
          | some a, some d => ⟨st.typology, st.txs ++ [⟨d, a⟩], st.events⟩
          | _, _ => st
        | none => st
      | none => st

/-- The implicit flush at end of input. -/
def amlFinalize (st : AmlState) : List Event :=
  match st.typology with
  | some t => if st.txs = [] then st.events else st.events ++ summarize_block t st.txs
  | none => st.events

def parse_amlsim_format (lines : List Str) : List Event :=
  amlFinalize (lines.foldl amlStep amlInit)

/-! ### Aggregation (`extract_causal_chain`) -/

/-- Fallback when neither format is detected. -/
def fallbackEvents (lines : List Str) : List Event :=
  (lines.filter (fun l => !(pstrip l = []))).map (fun l =>
    { timestamp := NA_STR
      event_type := UNKNOWN_STR
      raw_log := rstrip l
      details := .unknownErr ("Unsupported log format".data) })

/-- The sort key: `x["timestamp"] if x["timestamp"] != "N/A" else "9999-99-99"`. -/
def eventKey (e : Event) : Str :=
  if e.timestamp = NA_STR then "9999-99-99".data else e.timestamp

/-- Stable insertion: `x` goes before the first element whose key is not
strictly below `x`'s (models Python's stable `list.sort(key=...)`). -/
def insertEv (x : Event) : List Event → List Event
  | [] => [x]
  | y :: ys => if strLt (eventKey y) (eventKey x) then y :: insertEv x ys else x :: y :: ys

def sortEvents : List Event → List Event
  | [] => []
  | x :: xs => insertEv x (sortEvents xs)

structure Summary where
  total_alerts : ℕ
  total_amount_at_risk : ℤ
  total_lines : ℕ
  unmatched_lines : ℤ
  detected_format : Str
deriving DecidableEq

structure ExtractResult where
  causal_chain : List Event
  summary : Summary
deriving DecidableEq

def detailsAmount : Details → Option ℤ
  | .alert _ _ _ a => some a
  | .blockAlert _ _ _ a _ _ => some a
  | .unknownErr _ => none

def detectKaggle (lines : List Str) : Bool :=
  (lines.take 50).any (fun l => (kaggleSearch l).isSome)

def detectAmlsim (lines : List Str) : Bool :=
  lines.any (fun l => (beginMatch l).isSome)

def parsedEventsOf (lines : List Str) : Option (List Event) :=
  if detectKaggle lines then parse_kaggle_format lines
  else if detectAmlsim lines then some (parse_amlsim_format lines)
  else some (fallbackEvents lines)

def buildResult (lines : List Str) (evs : List Event) : ExtractResult :=
  let sorted := sortEvents evs
  let valid := sorted.filter (fun e => e.event_type = ALERT_TYPE_STR)
  { causal_chain := sorted
    summary :=
      { total_alerts := valid.length
        total_amount_at_risk := (valid.filterMap (fun e => detailsAmount e.details)).sum
        total_lines := lines.length
        unmatched_lines := (lines.length : ℤ) - valid.length
        detected_format :=
          if detectKaggle lines then "KAGGLE".data
          else if detectAmlsim lines then "AMLSIM".data
          else UNKNOWN_STR } }

/-- The core entry point; `none` models an uncaught exception (possible
only through the KAGGLE amount conversion). -/
def extract_causal_chain (rawLogs : Str) : Option ExtractResult :=
  let lines := splitNl (pstrip rawLogs)
  (parsedEventsOf lines).map (buildResult lines)

/-! ### Claim-side comparison definitions and concrete inputs -/

/-- The count of non-empty input lines, following the spec's words
(`total_lines`: count of non-empty input lines processed): the
newline-separated lines of the input whose stripped form is non-empty.
This is the spec-side definition, to be compared with the code's
`len(lines)`. -/
def nonEmptyLineCount (input : Str) : ℕ :=
  ((splitNl input).filter (fun l => !(pstrip l = []))).length

def detailsCaseId : Details → Option Str
  | .alert _ c _ _ => some c
  | .blockAlert _ c _ _ _ _ => some c
  | .unknownErr _ => none

/-- Scenario-1-style tabular alert line. -/
def kLineA : Str :=
  ("1 | 2024-01-05 | Case ID FC000123 | Structuring detected involving " ++
   "cross-border entities, automated alert triggered. | Amount: $10,000").data

/-- A tabular alert line whose (syntactically well-formed) date field
compares above the `"9999-99-99"` sentinel once `" 00:00:00"` is
appended. -/
def kLine9999 : Str :=
  ("1 | 9999-99-99 | Case ID FC000001 | Structuring detected involving " ++
   "cross-border entities, automated alert triggered. | Amount: $5").data

/-- C3 counterexample input: a non-matching first line, 49 blank lines,
then a matching tabular alert line (the 51st physical line, but only the
2nd non-empty one). -/
def c3cxIn : Str := 'x' :: (List.replicate 50 '\n' ++ kLineA)

/-- C5 / Scenario 2 input: one FAN-OUT block with two transactions. -/
def c5In : Str :=
  ("BEGIN LAUNDERING ATTEMPT - FAN-OUT\n" ++
   "2022/09/01 10:00,ACC1,ACC2,1,TRANSFER,100.0,USD\n" ++
   "2022/09/03 11:00,ACC1,ACC3,2,TRANSFER,250.0,USD\n" ++
   "END LAUNDERING ATTEMPT").data

/-- C6 counterexample input: the 9999-dated alert line plus a line that
matches nothing (hence gets timestamp `"N/A"`). -/
def c6cxIn : Str := kLine9999 ++ '\n' :: ("junk".data)

/-- C9 counterexample input: a non-matching first line, then a matching
alert line carrying leading whitespace (preserved by the blob-level strip
because it is an interior line). -/
def c9cxIn : Str := 'x' :: '\n' :: ' ' :: ' ' :: kLineA

/-- Apply a function to the last element of a list (helper for the
split/reverse lemmas). -/
def modLast (g : Str → Str) : List Str → List Str
  | [] => []
  | [x] => [g x]
  | x :: y :: xs => x :: modLast g (y :: xs)

/-- Count of non-blank segments (blank = all whitespace). -/
def countQ (l : List Str) : ℕ :=
  (l.filter (fun s => !(s.all isSpace))).length

/-! ## Claim theorems -/

/-- C2 (counterexample): on the empty string the code returns
`total_lines = 1` and `unmatched_lines = 1` (the claim demands every
summary count be zero): Python's `"".strip().split('\n')` is `['']`, a
one-element list. -/
theorem C2_counterexample :
    (extract_causal_chain ("".data)).map (fun r => r.summary.total_lines) = some 1 ∧
    (extract_causal_chain ("".data)).map (fun r => r.summary.unmatched_lines) = some 1 ∧
    ¬((1 : ℕ) = 0) := by
  refine ⟨by decide, by decide, by decide⟩

/-- C2 (amended): on empty input, `causal_chain = []`,
`total_alerts = 0`, `total_amount_at_risk = 0` and
`detected_format = "UNKNOWN"`, but `total_lines = 1` and
`unmatched_lines = 1`. -/
theorem C2_empty_input :
    extract_causal_chain ("".data) =
      some { causal_chain := []
             summary := { total_alerts := 0, total_amount_at_risk := 0,
                          total_lines := 1, unmatched_lines := 1,
                          detected_format := UNKNOWN_STR } } := by
  decide

/-- C5: the Scenario-2 block input produces exactly one derived
`FINANCIAL_CRIME_ALERT` event with `amount = 350` (the rational sum
`100.0 + 250.0` truncated to an integer), `transaction_count = 2` and
`period = "2022-09-01 to 2022-09-03"`. -/
theorem C5_block_summary :
    extract_causal_chain c5In =
      some { causal_chain :=
               [{ timestamp := "2022-09-01 00:00:00".data
                  event_type := ALERT_TYPE_STR
                  raw_log := "Synthetic alert from FAN_OUT block (2 transactions)".data
                  details := .blockAlert ("2022-09-01".data) ("SYNFA0002".data)
                    ("FAN-OUT".data) 350 2 ("2022-09-01 to 2022-09-03".data) }]
             summary := { total_alerts := 1, total_amount_at_risk := 350,
                          total_lines := 4, unmatched_lines := 3,
                          detected_format := "AMLSIM".data } } := by
  decide

/-- C1 (counterexample): for the input `"a\n\nb"` the summary field
`total_lines` is 3 (interior blank lines are counted by `len(lines)`),
while the input has only 2 non-empty lines. -/
theorem C1_counterexample :
    (extract_causal_chain ("a\n\nb".data)).map (fun r => r.summary.total_lines) = some 3 ∧
    nonEmptyLineCount ("a\n\nb".data) = 2 ∧ ¬((3 : ℕ) = 2) := by
  refine ⟨by decide, by decide, by decide⟩

/-- C3 (counterexample): in `c3cxIn` the matching tabular-alert line is
among the first 50 *non-empty* lines (it is the 2nd), so the claim
predicts `detected_format = "KAGGLE"`; but the code scans the first 50
physical lines (blank ones included), misses it, finds no block marker,
and reports `"UNKNOWN"`. -/
theorem C3_counterexample :
    ((((splitNl (pstrip c3cxIn)).filter (fun l => !(pstrip l = []))).take 50).any
        (fun l => (kaggleSearch l).isSome) = true) ∧
    (extract_causal_chain c3cxIn).map (fun r => r.summary.detected_format) =
      some UNKNOWN_STR ∧
    ¬(UNKNOWN_STR = ("KAGGLE".data : Str)) := by
  refine ⟨by decide, by decide, by decide⟩

/-- C4 (counterexample): the input `"a \nb"` has first line `"a "`
(trailing space preserved by the blob-level strip since the blob ends in
`'b'`), yet the Event produced from it carries `raw_log = "a"`: the
original line is *not* preserved verbatim (it is right-stripped). -/
theorem C4_counterexample :
    splitNl (pstrip ("a \nb".data)) = [("a ".data), ("b".data)] ∧
    (extract_causal_chain ("a \nb".data)).map (fun r => r.causal_chain.map Event.raw_log) =
      some [("a".data), ("b".data)] ∧
    ¬(("a ".data : Str) = ("a".data : Str)) := by
  refine ⟨by decide, by decide, by decide⟩

/-- C6 (counterexample): on `c6cxIn` the sorted chain places the
`"N/A"`-timestamped event *before* the event with (syntactically
well-formed) timestamp `"9999-99-99 00:00:00"`, because the comparison
sentinel `"9999-99-99"` is a strict prefix of it: `"N/A"` events are not
always last. -/
theorem C6_counterexample :
    (extract_causal_chain c6cxIn).map (fun r => r.causal_chain.map Event.timestamp) =
      some [NA_STR, ("9999-99-99 00:00:00".data)] ∧
    ¬(("9999-99-99 00:00:00".data : Str) = NA_STR) := by
  refine ⟨by decide, by decide⟩

/-- C8 (counterexample): a flushed FAN_OUT block with one transaction
gets `case_id = "SYNFA0001"`, not the claim's
`T[:2] + f"{n:04d}" = "FA0001"`: the code prepends `"SYN"`. -/
theorem C8_counterexample :
    (summarize_block ("FAN_OUT".data) [⟨("2022-09-01".data), ⟨100, 1⟩⟩]).map
        (fun e => detailsCaseId e.details) = [some ("SYNFA0001".data)] ∧
    ¬(("SYNFA0001".data : Str) = ("FAN_OUT".data).take 2 ++ pad4 1) := by
  refine ⟨by decide, by decide⟩

/-- C9 (counterexample): in `c9cxIn` the second line matches the tabular
grammar and carries leading whitespace; its Event has
`raw_log = "  1 | …"`, but re-running the core on that `raw_log` yields
an Event with `raw_log = "1 | …"` (the blob-level strip removes the
leading whitespace), so the round trip does not reproduce the same
Event. -/
theorem C9_counterexample :
    (extract_causal_chain c9cxIn).map (fun r => r.causal_chain.map Event.raw_log) =
      some [(' ' :: ' ' :: kLineA), ("x".data)] ∧
    (extract_causal_chain (' ' :: ' ' :: kLineA)).map
        (fun r => r.causal_chain.map Event.raw_log) = some [kLineA] ∧
    ¬((' ' :: ' ' :: kLineA : Str) = kLineA) := by
  refine ⟨by decide, by decide, by decide⟩

/-- C8 (amended): every flushed non-empty block with typology `T` and
`n` transactions yields exactly one summary Event whose `case_id` is
`"SYN"` followed by the first two characters of `T` and `n` zero-padded
to 4 digits — a deterministic function of `T` and `n` (the claim omitted
the `"SYN"` prefix). -/
theorem C8_amended (t : Str) (txs : List Tx) (h : ¬(txs = [])) :
    (summarize_block t txs).map (fun e => detailsCaseId e.details) =
      [some ("SYN".data ++ t.take 2 ++ pad4 txs.length)] := by
  simp only [summarize_block, if_neg h, List.map_cons, List.map_nil, detailsCaseId]

/-- Witness for C8: the amended case-id law evaluated on a concrete
one-transaction FAN_OUT block. -/
theorem C8_amended_witness :
    ¬(([⟨("2022-09-01".data), ⟨100, 1⟩⟩] : List Tx) = []) ∧
    (summarize_block ("FAN_OUT".data) [⟨("2022-09-01".data), ⟨100, 1⟩⟩]).map
        (fun e => detailsCaseId e.details) =
      [some ("SYN".data ++ ("FAN_OUT".data).take 2 ++ pad4 1)] :=
  ⟨by decide, C8_amended ("FAN_OUT".data) [⟨("2022-09-01".data), ⟨100, 1⟩⟩] (by decide)⟩

theorem amlStep_end_line (st : AmlState) (t : Str) (h : st.typology = some t) :
    amlStep st ("END LAUNDERING ATTEMPT".data) =
      ⟨none, [], st.events ++ summarize_block t st.txs⟩ := by
  unfold amlStep
  rw [show beginMatch (pstrip ("END LAUNDERING ATTEMPT".data)) = none from by decide]
  rw [show endMatches (pstrip ("END LAUNDERING ATTEMPT".data)) = true from by decide]
  rw [h]
  simp

/-- C7: appending an `END LAUNDERING ATTEMPT` line to an input whose
block-parser run ends in an open block with a non-empty accumulator does
not change the parser's output: the open block is flushed at end of input
exactly as an explicit end marker would flush it. -/
theorem C7_implicit_flush (ls : List Str) (t : Str)
    (hty : (ls.foldl amlStep amlInit).typology = some t)
    (htx : ¬((ls.foldl amlStep amlInit).txs = [])) :
    parse_amlsim_format (ls ++ [("END LAUNDERING ATTEMPT".data)]) =
      parse_amlsim_format ls := by
  unfold parse_amlsim_format
  rw [List.foldl_append, List.foldl_cons, List.foldl_nil, amlStep_end_line _ t hty]
  unfold amlFinalize
  rw [hty]
  simp [htx]

/-- Witness for C7: a begin marker plus one transaction line, never
closed; the flush theorem applies and both runs agree. -/
theorem C7_witness :
    (([("BEGIN LAUNDERING ATTEMPT - FAN-OUT".data),
       ("2022/09/01 10:00,ACC1,ACC2,1,TRANSFER,100.0,USD".data)].foldl amlStep
        amlInit).typology = some ("FAN_OUT".data)) ∧
    ¬(([("BEGIN LAUNDERING ATTEMPT - FAN-OUT".data),
        ("2022/09/01 10:00,ACC1,ACC2,1,TRANSFER,100.0,USD".data)].foldl amlStep
         amlInit).txs = []) ∧
    parse_amlsim_format
        ([("BEGIN LAUNDERING ATTEMPT - FAN-OUT".data),
          ("2022/09/01 10:00,ACC1,ACC2,1,TRANSFER,100.0,USD".data)] ++
         [("END LAUNDERING ATTEMPT".data)]) =
      parse_amlsim_format
        [("BEGIN LAUNDERING ATTEMPT - FAN-OUT".data),
         ("2022/09/01 10:00,ACC1,ACC2,1,TRANSFER,100.0,USD".data)] :=
  ⟨by decide, by decide,
   C7_implicit_flush
     [("BEGIN LAUNDERING ATTEMPT - FAN-OUT".data),
      ("2022/09/01 10:00,ACC1,ACC2,1,TRANSFER,100.0,USD".data)]
     ("FAN_OUT".data) (by decide) (by decide)⟩

theorem litCI_head (a : Char) (ps : Str) (s : Str)
    (h : (litCI (a :: ps) s).isSome = true) :
    ∃ c cs, s = c :: cs ∧ chEqCI a c = true := by
  cases s with
  | nil => simp [litCI] at h
  | cons c cs =>
    refine ⟨c, cs, rfl, ?_⟩
    by_contra hc
    simp only [litCI, Bool.not_eq_true] at h hc
    rw [hc] at h
    simp at h

theorem beginMatch_none_of_end (l : Str) (h : endMatches l = true) :
    beginMatch l = none := by
  unfold endMatches at h
  rw [show ("END LAUNDERING ATTEMPT".data : Str) =
        'E' :: ("ND LAUNDERING ATTEMPT".data) from rfl] at h
  obtain ⟨c, cs, rfl, hc⟩ := litCI_head _ _ _ h
  unfold beginMatch
  rw [show ("BEGIN LAUNDERING ATTEMPT - ".data : Str) =
        'B' :: ("EGIN LAUNDERING ATTEMPT - ".data) from rfl]
  unfold litCI
  have h1 : lowerCode c = 101 := by
    simp only [chEqCI, decide_eq_true_eq] at hc
    rw [show lowerCode 'E' = 101 from rfl] at hc
    omega
  have hb : chEqCI 'B' c = false := by
    simp only [chEqCI, decide_eq_false_iff_not]
    rw [show lowerCode 'B' = 98 from rfl, h1]
    omega
  rw [hb]
  simp

theorem amlStep_end_idle (st : AmlState) (l : Str)
    (hend : endMatches (pstrip l) = true) (h : st.typology = none) :
    amlStep st l = st := by
  unfold amlStep
  rw [beginMatch_none_of_end _ hend, hend, h]
  simp

/-- C10: an `END LAUNDERING ATTEMPT` line met while no block is open is
silently ignored by the block parser — it adds no Event, leaves the state
unchanged, and the rest of the input (including later blocks) parses
exactly as if the stray line were absent. -/
theorem C10_stray_end (l : Str) (ls₁ ls₂ : List Str)
    (hend : endMatches (pstrip l) = true)
    (hidle : (ls₁.foldl amlStep amlInit).typology = none) :
    parse_amlsim_format (ls₁ ++ l :: ls₂) = parse_amlsim_format (ls₁ ++ ls₂) := by
  unfold parse_amlsim_format
  rw [List.foldl_append, List.foldl_append, List.foldl_cons,
    amlStep_end_idle _ _ hend hidle]

/-- Witness for C10: a stray end marker as the very first line, followed
by a complete block; the parse equals the parse without the stray line. -/
theorem C10_witness :
    endMatches (pstrip ("END LAUNDERING ATTEMPT".data)) = true ∧
    (([] : List Str).foldl amlStep amlInit).typology = none ∧
    parse_amlsim_format
        ([] ++ ("END LAUNDERING ATTEMPT".data) ::
          [("BEGIN LAUNDERING ATTEMPT - FAN-OUT".data),
           ("2022/09/01 10:00,ACC1,ACC2,1,TRANSFER,100.0,USD".data),
           ("END LAUNDERING ATTEMPT".data)]) =
      parse_amlsim_format
        ([] ++
          [("BEGIN LAUNDERING ATTEMPT - FAN-OUT".data),
           ("2022/09/01 10:00,ACC1,ACC2,1,TRANSFER,100.0,USD".data),
           ("END LAUNDERING ATTEMPT".data)]) :=
  ⟨by decide, by decide,
   C10_stray_end ("END LAUNDERING ATTEMPT".data) []
     [("BEGIN LAUNDERING ATTEMPT - FAN-OUT".data),
      ("2022/09/01 10:00,ACC1,ACC2,1,TRANSFER,100.0,USD".data),
      ("END LAUNDERING ATTEMPT".data)] (by decide) (by decide)⟩

/-- Inversion of the entry point: a successful run is a `buildResult` of
the parser output on the split, stripped input. -/
theorem extract_eq (blob : Str) (r : ExtractResult)
    (h : extract_causal_chain blob = some r) :
    ∃ evs, parsedEventsOf (splitNl (pstrip blob)) = some evs ∧
      r = buildResult (splitNl (pstrip blob)) evs := by
  unfold extract_causal_chain at h
  obtain ⟨evs, h1, h2⟩ := Option.map_eq_some'.mp h
  exact ⟨evs, h1, h2.symm⟩

/-- C3 (amended): format detection scans the first 50 *physical* lines of
the stripped input (blank interior lines included, each tested as the raw
line) for a tabular-alert match; any hit gives `"KAGGLE"`; only otherwise
is the whole input scanned for a begin-of-block marker (`"AMLSIM"`), and
with neither found the format is `"UNKNOWN"`. -/
theorem C3_amended (blob : Str) (r : ExtractResult)
    (h : extract_causal_chain blob = some r) :
    (((splitNl (pstrip blob)).take 50).any (fun l => (kaggleSearch l).isSome) = true →
        r.summary.detected_format = ("KAGGLE".data : Str)) ∧
    (((splitNl (pstrip blob)).take 50).any (fun l => (kaggleSearch l).isSome) = false →
      (splitNl (pstrip blob)).any (fun l => (beginMatch l).isSome) = true →
        r.summary.detected_format = ("AMLSIM".data : Str)) ∧
    (((splitNl (pstrip blob)).take 50).any (fun l => (kaggleSearch l).isSome) = false →
      (splitNl (pstrip blob)).any (fun l => (beginMatch l).isSome) = false →
        r.summary.detected_format = UNKNOWN_STR) := by
  obtain ⟨evs, _, rfl⟩ := extract_eq blob r h
  unfold buildResult detectKaggle detectAmlsim
  refine ⟨fun h1 => ?_, fun h1 h2 => ?_, fun h1 h2 => ?_⟩
  · simp [h1]
  · simp [h1, h2]
  · simp [h1, h2]

/-- Witness for C3: the empty input, where neither detector fires and the
format is `"UNKNOWN"`. -/
theorem C3_amended_witness :
    extract_causal_chain ("".data) =
      some { causal_chain := []
             summary := { total_alerts := 0, total_amount_at_risk := 0,
                          total_lines := 1, unmatched_lines := 1,
                          detected_format := UNKNOWN_STR } } ∧
    (((splitNl (pstrip ("".data))).take 50).any (fun l => (kaggleSearch l).isSome) = false) ∧
    (splitNl (pstrip ("".data))).any (fun l => (beginMatch l).isSome) = false ∧
    ({ causal_chain := []
       summary := { total_alerts := 0, total_amount_at_risk := 0,
                    total_lines := 1, unmatched_lines := 1,
                    detected_format := UNKNOWN_STR } : ExtractResult }).summary.detected_format =
      UNKNOWN_STR :=
  ⟨by decide, by decide, by decide,
   (C3_amended ("".data) _ (by decide)).2.2 (by decide) (by decide)⟩

theorem parseKaggleGo_cons_blank (n : ℕ) (l : Str) (ls : List Str)
    (hb : pstrip l = []) :
    parseKaggleGo n (l :: ls) = parseKaggleGo (n + 1) ls := by
  conv_lhs => rw [parseKaggleGo.eq_def]
  dsimp only
  rw [if_pos hb]

theorem parseKaggleGo_cons_alert (n : ℕ) (l : Str) (ls : List Str)
    (g : KaggleGroups) (amt : ℤ) (hb : ¬(pstrip l = []))
    (hk : kaggleSearch l = some g)
    (ha : parseIntCommas g.amountStr = some amt) :
    parseKaggleGo n (l :: ls) =
      (parseKaggleGo (n + 1) ls).map (fun rest =>
        { timestamp := g.date ++ " 00:00:00".data
          event_type := ALERT_TYPE_STR
          raw_log := rstrip l
          details := .alert g.date g.case_id (pstrip g.alert_type) amt } :: rest) := by
  conv_lhs => rw [parseKaggleGo.eq_def]
  dsimp only
  rw [if_neg hb, hk]
  dsimp only
  rw [ha]

theorem parseKaggleGo_cons_fail (n : ℕ) (l : Str) (ls : List Str)
    (g : KaggleGroups) (hb : ¬(pstrip l = []))
    (hk : kaggleSearch l = some g)
    (ha : parseIntCommas g.amountStr = none) :
    parseKaggleGo n (l :: ls) = none := by
  conv_lhs => rw [parseKaggleGo.eq_def]
  dsimp only
  rw [if_neg hb, hk]
  dsimp only
  rw [ha]

theorem parseKaggleGo_cons_unk (n : ℕ) (l : Str) (ls : List Str)
    (hb : ¬(pstrip l = [])) (hk : kaggleSearch l = none) :
    parseKaggleGo n (l :: ls) =
      (parseKaggleGo (n + 1) ls).map (fun rest =>
        { timestamp := NA_STR
          event_type := UNKNOWN_STR
          raw_log := rstrip l
          details := .unknownErr ("Unmatched line ".data ++ natStr n) } :: rest) := by
  conv_lhs => rw [parseKaggleGo.eq_def]
  dsimp only
  rw [if_neg hb, hk]

theorem parseKaggleGo_rawlog (lines : List Str) :
    ∀ (n : ℕ) (evs : List Event), parseKaggleGo n lines = some evs →
      evs.map Event.raw_log =
        (lines.filter (fun l => !(pstrip l = []))).map rstrip := by
  induction lines with
  | nil =>
    intro n evs h
    simp only [parseKaggleGo, Option.some.injEq] at h
    subst h
    simp
  | cons l ls ih =>
    intro n evs h
    by_cases hb : pstrip l = []
    · rw [parseKaggleGo_cons_blank _ _ _ hb] at h
      have := ih _ _ h
      simp only [List.filter_cons, hb]
      simpa using this
    · have hfc : (List.filter (fun l => !(pstrip l = [])) (l :: ls)) =
          l :: List.filter (fun l => !(pstrip l = [])) ls := by
        simp [List.filter_cons, hb]
      cases hk : kaggleSearch l with
      | some g =>
        cases ha : parseIntCommas g.amountStr with
        | none =>
          rw [parseKaggleGo_cons_fail _ _ _ _ hb hk ha] at h
          exact absurd h (by simp)
        | some amt =>
          rw [parseKaggleGo_cons_alert _ _ _ _ _ hb hk ha] at h
          obtain ⟨rest, hr, hrev⟩ := Option.map_eq_some'.mp h
          subst hrev
          rw [hfc]
          simp only [List.map_cons]
          rw [ih _ _ hr]
      | none =>
        rw [parseKaggleGo_cons_unk _ _ _ hb hk] at h
        obtain ⟨rest, hr, hrev⟩ := Option.map_eq_some'.mp h
        subst hrev
        rw [hfc]
        simp only [List.map_cons]
        rw [ih _ _ hr]

/-- C4 (amended): every directly-parsed Event (tabular-alert match,
tabular-alert non-match, and the UNKNOWN fallback) carries as `raw_log`
the original input line with its *trailing* whitespace removed
(`raw_line.rstrip()`), in input order — verbatim exactly when the line
has no trailing whitespace. -/
theorem C4_amended :
    (∀ (lines : List Str) (evs : List Event), parse_kaggle_format lines = some evs →
        evs.map Event.raw_log =
          (lines.filter (fun l => !(pstrip l = []))).map rstrip) ∧
    (∀ lines : List Str,
        (fallbackEvents lines).map Event.raw_log =
          (lines.filter (fun l => !(pstrip l = []))).map rstrip) := by
  constructor
  · intro lines evs h
    exact parseKaggleGo_rawlog lines 1 evs h
  · intro lines
    unfold fallbackEvents
    rw [List.map_map]
    rfl

/-- Witness for C4: the raw-log law evaluated on a two-line KAGGLE parse
(one matching line, one not). -/
theorem C4_amended_witness :
    parse_kaggle_format [kLineA, ("junk ".data)] =
      some [{ timestamp := "2024-01-05 00:00:00".data
              event_type := ALERT_TYPE_STR
              raw_log := kLineA
              details := .alert ("2024-01-05".data) ("FC000123".data)
                ("Structuring".data) 10000 },
            { timestamp := NA_STR
              event_type := UNKNOWN_STR
              raw_log := "junk".data
              details := .unknownErr ("Unmatched line 2".data) }] ∧
    ([{ timestamp := "2024-01-05 00:00:00".data
        event_type := ALERT_TYPE_STR
        raw_log := kLineA
        details := .alert ("2024-01-05".data) ("FC000123".data)
          ("Structuring".data) 10000 },
      { timestamp := NA_STR
        event_type := UNKNOWN_STR
        raw_log := "junk".data
        details := .unknownErr ("Unmatched line 2".data) }] : List Event).map
        Event.raw_log =
      (([kLineA, ("junk ".data)] : List Str).filter
          (fun l => !(pstrip l = []))).map rstrip :=
  ⟨by decide, C4_amended.1 [kLineA, ("junk ".data)] _ (by decide)⟩

/-! ### Order lemmas for the timestamp sort -/

theorem strLt_irrefl (s : Str) : strLt s s = false := by
  induction s with
  | nil => rfl
  | cons a as ih => simp [strLt, ih]

theorem strLe_of_lt : ∀ s t, strLt s t = true → strLe s t = true := by
  intro s
  induction s with
  | nil => intro t _; cases t <;> rfl
  | cons a as ih =>
    intro t h
    cases t with
    | nil => simp [strLt] at h
    | cons b bs =>
      simp only [strLt] at h
      simp only [strLe]
      by_cases hab : a.toNat = b.toNat
      · rw [if_pos hab] at h ⊢
        exact ih bs h
      · rw [if_neg hab] at h ⊢
        exact h

theorem strLe_of_not_lt : ∀ s t, strLt s t = false → strLe t s = true := by
  intro s
  induction s with
  | nil =>
    intro t h
    cases t with
    | nil => rfl
    | cons b bs => simp [strLt] at h
  | cons a as ih =>
    intro t h
    cases t with
    | nil => rfl
    | cons b bs =>
      simp only [strLt] at h
      simp only [strLe]
      by_cases hab : a.toNat = b.toNat
      · rw [if_pos hab] at h
        rw [if_pos hab.symm]
        exact ih bs h
      · rw [if_neg hab] at h
        have h1 : ¬(a.toNat < b.toNat) := by simpa using h
        rw [if_neg (fun hh => hab hh.symm)]
        simp only [decide_eq_true_eq]
        omega

theorem strLe_trans : ∀ a b c, strLe a b = true → strLe b c = true → strLe a c = true := by
  intro a
  induction a with
  | nil => intro b c _ _; rfl
  | cons x xs ih =>
    intro b c h1 h2
    cases b with
    | nil => simp [strLe] at h1
    | cons y ys =>
      cases c with
      | nil => simp [strLe] at h2
      | cons z zs =>
        simp only [strLe] at h1 h2 ⊢
        by_cases hxy : x.toNat = y.toNat
        · rw [if_pos hxy] at h1
          by_cases hyz : y.toNat = z.toNat
          · rw [if_pos hyz] at h2
            rw [if_pos (hxy.trans hyz)]
            exact ih _ _ h1 h2
          · rw [if_neg hyz] at h2
            have h3 : y.toNat < z.toNat := by simpa using h2
            rw [if_neg (by omega)]
            simp only [decide_eq_true_eq]
            omega
        · rw [if_neg hxy] at h1
          have h3 : x.toNat < y.toNat := by simpa using h1
          by_cases hyz : y.toNat = z.toNat
          · rw [if_neg (by omega)]
            simp only [decide_eq_true_eq]
            omega
          · rw [if_neg hyz] at h2
            have h4 : y.toNat < z.toNat := by simpa using h2
            rw [if_neg (by omega)]
            simp only [decide_eq_true_eq]
            omega

theorem insertEv_mem (x : Event) : ∀ (l : List Event) (b : Event),
    b ∈ insertEv x l → b = x ∨ b ∈ l := by
  intro l
  induction l with
  | nil =>
    intro b hb
    simp [insertEv] at hb
    exact Or.inl hb
  | cons y ys ih =>
    intro b hb
    unfold insertEv at hb
    by_cases hlt : strLt (eventKey y) (eventKey x) = true
    · rw [if_pos hlt] at hb
      rcases List.mem_cons.mp hb with h | h
      · exact Or.inr (List.mem_cons.mpr (Or.inl h))
      · rcases ih b h with h' | h'
        · exact Or.inl h'
        · exact Or.inr (List.mem_cons.mpr (Or.inr h'))
    · rw [if_neg hlt] at hb
      rcases List.mem_cons.mp hb with h | h
      · exact Or.inl h
      · exact Or.inr h

theorem insertEv_pairwise (x : Event) : ∀ l : List Event,
    l.Pairwise (fun a b => strLe (eventKey a) (eventKey b) = true) →
    (insertEv x l).Pairwise (fun a b => strLe (eventKey a) (eventKey b) = true) := by
  intro l
  induction l with
  | nil =>
    intro _
    simp [insertEv]
  | cons y ys ih =>
    intro h
    rw [List.pairwise_cons] at h
    obtain ⟨h1, h2⟩ := h
    unfold insertEv
    by_cases hlt : strLt (eventKey y) (eventKey x) = true
    · rw [if_pos hlt]
      rw [List.pairwise_cons]
      refine ⟨?_, ih h2⟩
      intro b hb
      rcases insertEv_mem x ys b hb with rfl | hmem
      · exact strLe_of_lt _ _ hlt
      · exact h1 b hmem
    · rw [if_neg hlt]
      rw [List.pairwise_cons]
      have hxy : strLe (eventKey x) (eventKey y) = true :=
        strLe_of_not_lt _ _ (by simpa using hlt)
      refine ⟨?_, List.pairwise_cons.mpr ⟨h1, h2⟩⟩
      intro b hb
      rcases List.mem_cons.mp hb with rfl | hmem
      · exact hxy
      · exact strLe_trans _ _ _ hxy (h1 b hmem)

theorem sortEvents_pairwise : ∀ l : List Event,
    (sortEvents l).Pairwise (fun a b => strLe (eventKey a) (eventKey b) = true) := by
  intro l
  induction l with
  | nil => simp [sortEvents]
  | cons x xs ih => exact insertEv_pairwise x _ ih

theorem insertEv_filter_eq (x : Event) (k : Str) (hk : eventKey x = k) :
    ∀ l : List Event,
      (insertEv x l).filter (fun e => decide (eventKey e = k)) =
        x :: l.filter (fun e => decide (eventKey e = k)) := by
  intro l
  induction l with
  | nil => simp [insertEv, hk]
  | cons y ys ih =>
    unfold insertEv
    by_cases hlt : strLt (eventKey y) (eventKey x) = true
    · rw [if_pos hlt]
      have hyk : ¬(eventKey y = k) := by
        intro hy
        rw [hy, ← hk, strLt_irrefl] at hlt
        exact Bool.false_ne_true hlt
      rw [List.filter_cons, List.filter_cons]
      simpa [hyk] using ih
    · rw [if_neg hlt]
      rw [List.filter_cons]
      simp [hk]

theorem insertEv_filter_ne (x : Event) (k : Str) (hk : ¬(eventKey x = k)) :
    ∀ l : List Event,
      (insertEv x l).filter (fun e => decide (eventKey e = k)) =
        l.filter (fun e => decide (eventKey e = k)) := by
  intro l
  induction l with
  | nil => simp [insertEv, hk]
  | cons y ys ih =>
    unfold insertEv
    by_cases hlt : strLt (eventKey y) (eventKey x) = true
    · rw [if_pos hlt]
      rw [List.filter_cons, List.filter_cons]
      cases hy : decide (eventKey y = k) <;> simp only [ih]
    · rw [if_neg hlt]
      rw [List.filter_cons]
      simp [hk]

theorem sortEvents_filter_key (l : List Event) (k : Str) :
    (sortEvents l).filter (fun e => decide (eventKey e = k)) =
      l.filter (fun e => decide (eventKey e = k)) := by
  induction l with
  | nil => rfl
  | cons x xs ih =>
    show (insertEv x (sortEvents xs)).filter _ = _
    by_cases hk : eventKey x = k
    · rw [insertEv_filter_eq x k hk, ih, List.filter_cons]
      simp [hk]
    · rw [insertEv_filter_ne x k hk, ih, List.filter_cons]
      simp [hk]

/-- C6 (amended): the returned `causal_chain` is sorted ascending by the
comparison key — the event's timestamp, with `"N/A"` replaced by the
sentinel `"9999-99-99"` — under code-point lexicographic order, and the
sort is stable (events with equal keys keep parser order; the stored
timestamp field itself is untouched).  `"N/A"` events therefore come
after every event whose timestamp compares below `"9999-99-99"` (every
ordinary date), but not after a timestamp such as
`"9999-99-99 00:00:00"`, which is why the original claim fails. -/
theorem C6_amended :
    (∀ (blob : Str) (r : ExtractResult), extract_causal_chain blob = some r →
        r.causal_chain.Pairwise (fun a b => strLe (eventKey a) (eventKey b) = true)) ∧
    (∀ (l : List Event) (k : Str),
        (sortEvents l).filter (fun e => decide (eventKey e = k)) =
          l.filter (fun e => decide (eventKey e = k))) := by
  constructor
  · intro blob r h
    obtain ⟨evs, _, rfl⟩ := extract_eq blob r h
    exact sortEvents_pairwise evs
  · exact sortEvents_filter_key

/-- Witness for C6: both conjuncts applied at concrete arguments (the
empty input, and the empty event list with the `"N/A"` key). -/
theorem C6_amended_witness :
    (({ causal_chain := []
        summary := { total_alerts := 0, total_amount_at_risk := 0,
                     total_lines := 1, unmatched_lines := 1,
                     detected_format := UNKNOWN_STR } : ExtractResult}).causal_chain.Pairwise
        (fun a b => strLe (eventKey a) (eventKey b) = true)) ∧
    (sortEvents []).filter (fun e => decide (eventKey e = NA_STR)) =
      ([] : List Event).filter (fun e => decide (eventKey e = NA_STR)) :=
  ⟨C6_amended.1 ("".data) _ (by decide), C6_amended.2 [] NA_STR⟩

/-! ### Line-splitting lemmas for the `total_lines` claim -/

theorem splitNl_ne_nil : ∀ s : Str, ¬(splitNl s = []) := by
  intro s
  induction s with
  | nil => simp [splitNl]
  | cons c cs ih =>
    rw [splitNl.eq_def]
    dsimp only
    by_cases hc : c = '\n'
    · rw [if_pos hc]
      simp
    · rw [if_neg hc]
      cases h : splitNl cs <;> simp

theorem splitNl_cons_nl (cs : Str) : splitNl ('\n' :: cs) = [] :: splitNl cs := rfl

theorem splitNl_cons_of_ne (c : Char) (cs : Str) (s : Str) (rest : List Str)
    (hc : ¬(c = '\n')) (hs : splitNl cs = s :: rest) :
    splitNl (c :: cs) = (c :: s) :: rest := by
  rw [splitNl.eq_def]
  dsimp only
  rw [if_neg hc, hs]

theorem countQ_cons_blank (s : Str) (t : List Str) (h : s.all isSpace = true) :
    countQ (s :: t) = countQ t := by
  unfold countQ
  rw [List.filter_cons]
  simp [h]

theorem countQ_cons_nonblank (s : Str) (t : List Str) (h : ¬(s.all isSpace = true)) :
    countQ (s :: t) = countQ t + 1 := by
  unfold countQ
  rw [List.filter_cons]
  simp [h]

theorem countQ_splitNl_space_cons (c : Char) (cs : Str) (hsp : isSpace c = true) :
    countQ (splitNl (c :: cs)) = countQ (splitNl cs) := by
  by_cases hc : c = '\n'
  · subst hc
    rw [splitNl_cons_nl, countQ_cons_blank]
    rfl
  · obtain ⟨s, rest, hs⟩ : ∃ s rest, splitNl cs = s :: rest := by
      cases h : splitNl cs with
      | nil => exact absurd h (splitNl_ne_nil cs)
      | cons a b => exact ⟨a, b, rfl⟩
    rw [splitNl_cons_of_ne c cs s rest hc hs, hs]
    have hall : (c :: s).all isSpace = s.all isSpace := by
      simp [List.all_cons, hsp]
    by_cases hb : s.all isSpace = true
    · rw [countQ_cons_blank _ _ (by rw [hall]; exact hb), countQ_cons_blank _ _ hb]
    · rw [countQ_cons_nonblank _ _ (by rw [hall]; exact hb), countQ_cons_nonblank _ _ hb]

theorem countQ_splitNl_lstrip (b : Str) :
    countQ (splitNl (b.dropWhile isSpace)) = countQ (splitNl b) := by
  induction b with
  | nil => rfl
  | cons c cs ih =>
    rw [List.dropWhile_cons]
    by_cases hsp : isSpace c = true
    · rw [if_pos hsp, ih, countQ_splitNl_space_cons c cs hsp]
    · rw [if_neg hsp]

theorem modLast_append_single (g : Str → Str) :
    ∀ (xs : List Str) (x : Str), modLast g (xs ++ [x]) = xs ++ [g x] := by
  intro xs
  induction xs with
  | nil => intro x; rfl
  | cons y ys ih =>
    intro x
    cases ys with
    | nil => rfl
    | cons z zs =>
      show y :: modLast g ((z :: zs) ++ [x]) = y :: ((z :: zs) ++ [g x])
      rw [ih x]

theorem splitNl_append_single (c : Char) :
    ∀ u : Str, splitNl (u ++ [c]) =
      if c = '\n' then splitNl u ++ [[]] else modLast (· ++ [c]) (splitNl u) := by
  intro u
  induction u with
  | nil =>
    by_cases hc : c = '\n'
    · subst hc
      rfl
    · rw [if_neg hc]
      show splitNl [c] = [[c]]
      rw [splitNl.eq_def]
      dsimp only
      rw [if_neg hc]
      rfl
  | cons d ds ih =>
    by_cases hd : d = '\n'
    · subst hd
      show splitNl ('\n' :: (ds ++ [c])) = _
      rw [splitNl_cons_nl, splitNl_cons_nl, ih]
      by_cases hc : c = '\n'
      · rw [if_pos hc, if_pos hc]
        rfl
      · rw [if_neg hc, if_neg hc]
        cases h : splitNl ds with
        | nil => exact absurd h (splitNl_ne_nil ds)
        | cons a b => rfl
    · obtain ⟨s, rest, hs⟩ : ∃ s rest, splitNl ds = s :: rest := by
        cases h : splitNl ds with
        | nil => exact absurd h (splitNl_ne_nil ds)
        | cons a b => exact ⟨a, b, rfl⟩
      by_cases hc : c = '\n'
      · subst hc
        rw [if_pos rfl] at ih ⊢
        have h2 : splitNl (ds ++ ['\n']) = (s :: rest) ++ [[]] := by rw [ih, hs]
        cases h3 : splitNl (ds ++ ['\n']) with
        | nil => exact absurd h3 (splitNl_ne_nil _)
        | cons a b =>
          rw [h3] at h2
          rw [show d :: ds ++ ['\n'] = d :: (ds ++ ['\n']) from rfl,
            splitNl_cons_of_ne d (ds ++ ['\n']) a b hd h3,
            splitNl_cons_of_ne d ds s rest hd hs]
          rw [List.cons_append] at h2
          rw [List.cons.injEq] at h2
          rw [h2.1, h2.2]
          rfl
      · rw [if_neg hc] at ih ⊢
        have h2 : splitNl (ds ++ [c]) = modLast (· ++ [c]) (s :: rest) := by rw [ih, hs]
        cases rest with
        | nil =>
          rw [show modLast (· ++ [c]) [s] = [s ++ [c]] from rfl] at h2
          rw [show d :: ds ++ [c] = d :: (ds ++ [c]) from rfl,
            splitNl_cons_of_ne d (ds ++ [c]) (s ++ [c]) [] hd h2,
            splitNl_cons_of_ne d ds s [] hd hs]
          rfl
        | cons r rs =>
          rw [show modLast (· ++ [c]) (s :: r :: rs) = s :: modLast (· ++ [c]) (r :: rs)
              from rfl] at h2
          rw [show d :: ds ++ [c] = d :: (ds ++ [c]) from rfl,
            splitNl_cons_of_ne d (ds ++ [c]) s (modLast (· ++ [c]) (r :: rs)) hd h2,
            splitNl_cons_of_ne d ds s (r :: rs) hd hs]
          rfl

theorem splitNl_reverse : ∀ x : Str,
    splitNl x.reverse = ((splitNl x).map List.reverse).reverse := by
  intro x
  induction x with
  | nil => rfl
  | cons c cs ih =>
    rw [List.reverse_cons, splitNl_append_single c cs.reverse, ih]
    by_cases hc : c = '\n'
    · subst hc
      rw [if_pos rfl, splitNl_cons_nl]
      simp
    · obtain ⟨s, rest, hs⟩ : ∃ s rest, splitNl cs = s :: rest := by
        cases h : splitNl cs with
        | nil => exact absurd h (splitNl_ne_nil cs)
        | cons a b => exact ⟨a, b, rfl⟩
      rw [if_neg hc, splitNl_cons_of_ne c cs s rest hc hs, hs]
      simp only [List.map_cons, List.reverse_cons, modLast_append_single]

theorem countQ_reverse (l : List Str) : countQ l.reverse = countQ l := by
  unfold countQ
  rw [List.filter_reverse, List.length_reverse]

theorem countQ_map_reverse (l : List Str) : countQ (l.map List.reverse) = countQ l := by
  unfold countQ
  induction l with
  | nil => rfl
  | cons s t ih =>
    rw [List.map_cons, List.filter_cons, List.filter_cons]
    have hrev : (s.reverse.all isSpace) = s.all isSpace := by simp
    rw [hrev]
    cases h : s.all isSpace <;> simp only [Bool.not_true, Bool.not_false, if_true, if_false]
    · simp only [List.length_cons]
      rw [← ih]
    · exact ih

theorem countQ_splitNl_rev (x : Str) :
    countQ (splitNl x.reverse) = countQ (splitNl x) := by
  rw [splitNl_reverse, countQ_reverse, countQ_map_reverse]

theorem countQ_splitNl_rstrip (y : Str) :
    countQ (splitNl (rstrip y)) = countQ (splitNl y) := by
  unfold rstrip
  rw [countQ_splitNl_rev, countQ_splitNl_lstrip, countQ_splitNl_rev]

theorem countQ_splitNl_pstrip (b : Str) :
    countQ (splitNl (pstrip b)) = countQ (splitNl b) := by
  unfold pstrip
  rw [countQ_splitNl_rstrip]
  exact countQ_splitNl_lstrip b

theorem pstrip_eq_nil_iff (s : Str) : pstrip s = [] ↔ s.all isSpace = true := by
  unfold pstrip rstrip lstrip
  constructor
  · intro h
    have h1 : (s.dropWhile isSpace).reverse.dropWhile isSpace = [] := by
      have := congrArg List.reverse h
      simpa using this
    rw [List.dropWhile_eq_nil_iff] at h1
    rw [List.all_eq_true]
    intro c hc
    rcases List.mem_append.mp
        ((List.takeWhile_append_dropWhile (p := isSpace) (l := s)) ▸ hc) with h2 | h2
    · exact List.mem_takeWhile_imp h2
    · exact h1 c (List.mem_reverse.mpr h2)
  · intro h
    have h1 : s.dropWhile isSpace = [] := by
      rw [List.dropWhile_eq_nil_iff]
      intro c hc
      exact (List.all_eq_true.mp h) c hc
    rw [h1]
    rfl

theorem countQ_eq_filterNB (l : List Str) :
    (l.filter (fun s => !(pstrip s = []))).length = countQ l := by
  unfold countQ
  have : ∀ s ∈ l, (!(pstrip s = [])) = (!(s.all isSpace)) := by
    intro s _
    by_cases h : pstrip s = []
    · rw [h]
      simp [(pstrip_eq_nil_iff s).mp h]
    · simp only [h]
      have h2 : ¬(s.all isSpace = true) := fun hh => h ((pstrip_eq_nil_iff s).mpr hh)
      simp [h, h2]
  rw [List.filter_congr this]

/-- C1 (amended): `total_lines` is the number of newline-separated
segments of the whitespace-stripped input (`len(raw_logs.strip().split('\n'))`);
it counts blank interior lines and equals 1 on empty input.  Whenever no
line of the stripped input is blank, it coincides with the claim's count
of non-empty input lines. -/
theorem C1_amended (blob : Str) (r : ExtractResult)
    (h : extract_causal_chain blob = some r)
    (hnb : ∀ l ∈ splitNl (pstrip blob), ¬(pstrip l = [])) :
    r.summary.total_lines = (splitNl (pstrip blob)).length ∧
    r.summary.total_lines = nonEmptyLineCount blob := by
  obtain ⟨evs, _, rfl⟩ := extract_eq blob r h
  refine ⟨rfl, ?_⟩
  show (splitNl (pstrip blob)).length = nonEmptyLineCount blob
  unfold nonEmptyLineCount
  rw [countQ_eq_filterNB]
  rw [← countQ_splitNl_pstrip blob]
  have hfull : (splitNl (pstrip blob)).filter (fun s => !(s.all isSpace)) =
      splitNl (pstrip blob) := by
    rw [List.filter_eq_self]
    intro a ha
    have h2 : ¬(pstrip a = []) := hnb a ha
    cases hcs : a.all isSpace with
    | false => rfl
    | true => exact absurd ((pstrip_eq_nil_iff a).mpr hcs) h2
  unfold countQ
  rw [hfull]

/-- Witness for C1: the amended `total_lines` law evaluated on the
blank-free two-line input `"a\nb"`. -/
theorem C1_amended_witness :
    (∀ l ∈ splitNl (pstrip ("a\nb".data)), ¬(pstrip l = [])) ∧
    (({ causal_chain :=
          [{ timestamp := NA_STR, event_type := UNKNOWN_STR, raw_log := "a".data
             details := .unknownErr ("Unsupported log format".data) },
           { timestamp := NA_STR, event_type := UNKNOWN_STR, raw_log := "b".data
             details := .unknownErr ("Unsupported log format".data) }]
        summary := { total_alerts := 0, total_amount_at_risk := 0,
                     total_lines := 2, unmatched_lines := 2,
                     detected_format := UNKNOWN_STR } : ExtractResult}).summary.total_lines =
        (splitNl (pstrip ("a\nb".data))).length ∧
     ({ causal_chain :=
          [{ timestamp := NA_STR, event_type := UNKNOWN_STR, raw_log := "a".data
             details := .unknownErr ("Unsupported log format".data) },
           { timestamp := NA_STR, event_type := UNKNOWN_STR, raw_log := "b".data
             details := .unknownErr ("Unsupported log format".data) }]
        summary := { total_alerts := 0, total_amount_at_risk := 0,
                     total_lines := 2, unmatched_lines := 2,
                     detected_format := UNKNOWN_STR } : ExtractResult}).summary.total_lines =
        nonEmptyLineCount ("a\nb".data)) :=
  ⟨by decide, C1_amended ("a\nb".data) _ (by decide) (by decide)⟩

/-! ### Trailing-whitespace invariance of the KAGGLE matcher (for C9)

Appending all-whitespace text to a line does not change the result of
`kaggleSearch`: every capture and every failure is decided before the
trailing whitespace, because each pattern element ends in a
non-whitespace character class. -/

theorem isSpace_cases (c : Char) (h : isSpace c = true) :
    c = ' ' ∨ c = '\t' ∨ c = '\n' ∨ c = '\r' ∨ c = '\x0b' ∨ c = '\x0c' := by
  unfold isSpace at h
  simp only [Bool.or_eq_true, decide_eq_true_eq] at h
  rcases h with ((((h | h) | h) | h) | h) | h
  · exact Or.inl (by rw [← Char.ofNat_toNat c, h])
  · exact Or.inr (Or.inl (by rw [← Char.ofNat_toNat c, h]))
  · exact Or.inr (Or.inr (Or.inl (by rw [← Char.ofNat_toNat c, h])))
  · exact Or.inr (Or.inr (Or.inr (Or.inl (by rw [← Char.ofNat_toNat c, h]))))
  · exact Or.inr (Or.inr (Or.inr (Or.inr (Or.inl
      (by rw [← Char.ofNat_toNat c, h])))))
  · exact Or.inr (Or.inr (Or.inr (Or.inr (Or.inr
      (by rw [← Char.ofNat_toNat c, h])))))

theorem space_not_digit (c : Char) (h : isSpace c = true) : c.isDigit = false := by
  rcases isSpace_cases c h with h1 | h1 | h1 | h1 | h1 | h1 <;> rw [h1] <;> rfl

theorem space_not_word (c : Char) (h : isSpace c = true) : isWordChar c = false := by
  rcases isSpace_cases c h with h1 | h1 | h1 | h1 | h1 | h1 <;> rw [h1] <;> rfl

theorem space_not_amtchar (c : Char) (h : isSpace c = true) :
    (c.isDigit || c = ',') = false := by
  rcases isSpace_cases c h with h1 | h1 | h1 | h1 | h1 | h1 <;> rw [h1] <;> rfl

theorem chEqCI_nonspace_space (p c : Char) (hp : isSpace p = false)
    (hc : isSpace c = true) : chEqCI p c = false := by
  have hc32 : c.toNat ≤ 32 := by
    unfold isSpace at hc
    simp only [Bool.or_eq_true, decide_eq_true_eq] at hc
    omega
  have hcl : lowerCode c = c.toNat := by
    unfold lowerCode
    rw [if_neg]
    omega
  unfold chEqCI
  simp only [decide_eq_false_iff_not]
  rw [hcl]
  unfold isSpace at hp hc
  simp only [Bool.or_eq_true, decide_eq_true_eq] at hc
  simp only [Bool.or_eq_false_iff, decide_eq_false_iff_not] at hp
  unfold lowerCode
  split
  · omega
  · omega

/-- `dropWhile isSpace` over an all-whitespace list is empty. -/
theorem dropWhile_space_of_all (x : Str) (hx : x.all isSpace = true) :
    x.dropWhile isSpace = [] :=
  List.dropWhile_eq_nil_iff.mpr (fun a ha => (List.all_eq_true.mp hx) a ha)

/-- `dropWhile p` distributes over an append whose first part is not
exhausted. -/
theorem dropWhile_append_of_not_all (p : Char → Bool) (x y : Str)
    (hx : ¬(x.all p = true)) :
    (x ++ y).dropWhile p = x.dropWhile p ++ y := by
  induction x with
  | nil => exact absurd rfl hx
  | cons c cs ih =>
    rw [List.cons_append, List.dropWhile_cons, List.dropWhile_cons]
    cases hc : p c with
    | false => simp
    | true =>
      simp only [if_true]
      have : ¬(cs.all p = true) := by
        intro hcs
        exact hx (by simp [List.all_cons, hc, hcs])
      exact ih this

/-- `dropWhile p` skips an all-`p` first part of an append. -/
theorem dropWhile_append_of_all (p : Char → Bool) (x y : Str)
    (hx : x.all p = true) :
    (x ++ y).dropWhile p = y.dropWhile p := by
  induction x with
  | nil => rfl
  | cons c cs ih =>
    rw [List.all_cons, Bool.and_eq_true] at hx
    rw [List.cons_append, List.dropWhile_cons, if_pos hx.1]
    exact ih hx.2

/-- `litCI` over a whitespace-free pattern ignores trailing whitespace. -/
theorem litCI_append (p : Str) (hp : p.all (fun c => !(isSpace c)) = true) :
    ∀ (x w : Str), w.all isSpace = true →
      litCI p (x ++ w) = (litCI p x).map (· ++ w) := by
  induction p with
  | nil => intro x w _; rfl
  | cons a ps ih =>
    intro x w hw
    rw [List.all_cons, Bool.and_eq_true] at hp
    cases x with
    | nil =>
      show litCI (a :: ps) w = none
      cases w with
      | nil => rfl
      | cons c cs =>
        rw [List.all_cons, Bool.and_eq_true] at hw
        show (if chEqCI a c then litCI ps cs else none) = none
        rw [chEqCI_nonspace_space a c (by simpa using hp.1) hw.1]
        rfl
    | cons c cs =>
      show (if chEqCI a c then litCI ps (cs ++ w) else none) =
        ((if chEqCI a c then litCI ps cs else none).map (· ++ w))
      cases hac : chEqCI a c with
      | false => rfl
      | true =>
        simp only [if_true]
        exact ih hp.2 cs w hw

/-- `takeWhile` over a whitespace-disjoint class ignores trailing
whitespace. -/
theorem takeWhile_class_append (q : Char → Bool)
    (hq : ∀ c, isSpace c = true → q c = false) :
    ∀ (x w : Str), w.all isSpace = true →
      (x ++ w).takeWhile q = x.takeWhile q := by
  intro x w hw
  induction x with
  | nil =>
    show w.takeWhile q = []
    cases w with
    | nil => rfl
    | cons c cs =>
      rw [List.all_cons, Bool.and_eq_true] at hw
      rw [List.takeWhile_cons, hq c hw.1]
      rfl
  | cons c cs ih =>
    rw [List.cons_append, List.takeWhile_cons, List.takeWhile_cons]
    cases hc : q c with
    | false => rfl
    | true => rw [ih]

/-- `dropWhile` over a whitespace-disjoint class keeps trailing
whitespace in the remainder. -/
theorem dropWhile_class_append (q : Char → Bool)
    (hq : ∀ c, isSpace c = true → q c = false) :
    ∀ (x w : Str), w.all isSpace = true →
      (x ++ w).dropWhile q = x.dropWhile q ++ w := by
  intro x w hw
  induction x with
  | nil =>
    show w.dropWhile q = w
    cases w with
    | nil => rfl
    | cons c cs =>
      rw [List.all_cons, Bool.and_eq_true] at hw
      rw [List.dropWhile_cons, hq c hw.1]
      rfl
  | cons c cs ih =>
    rw [List.cons_append, List.dropWhile_cons, List.dropWhile_cons]
    cases hc : q c with
    | false => rfl
    | true => rw [ih]; rfl

/-- `takeDigitsN` ignores trailing whitespace. -/
theorem takeDigitsN_append (n : ℕ) :
    ∀ (x w : Str), w.all isSpace = true →
      takeDigitsN n (x ++ w) = (takeDigitsN n x).map (fun p => (p.1, p.2 ++ w)) := by
  induction n with
  | zero => intro x w _; rfl
  | succ n ih =>
    intro x w hw
    cases x with
    | nil =>
      show takeDigitsN (n + 1) w = none
      cases w with
      | nil => rfl
      | cons c cs =>
        rw [List.all_cons, Bool.and_eq_true] at hw
        show (if c.isDigit then (takeDigitsN n cs).map _ else none) = none
        rw [space_not_digit c hw.1]
        rfl
    | cons c cs =>
      show (if c.isDigit then (takeDigitsN n (cs ++ w)).map _ else none) =
        ((if c.isDigit then (takeDigitsN n cs).map _ else none).map _)
      cases hc : c.isDigit with
      | false => rfl
      | true =>
        simp only [if_true]
        rw [ih cs w hw]
        cases takeDigitsN n cs <;> rfl

/-- `wsOpt` (a `\s*`-prefixed whitespace-free literal) ignores trailing
whitespace. -/
theorem wsOpt_append (p : Str) (hp : p.all (fun c => !(isSpace c)) = true)
    (hpn : ¬(p = [])) (x w : Str) (hw : w.all isSpace = true) :
    wsOpt p (x ++ w) = (wsOpt p x).map (· ++ w) := by
  unfold wsOpt
  by_cases hx : x.all isSpace = true
  · rw [dropWhile_append_of_all isSpace x w hx, dropWhile_space_of_all w hw,
      dropWhile_space_of_all x hx]
    cases p with
    | nil => exact absurd rfl hpn
    | cons a ps => rfl
  · rw [dropWhile_append_of_not_all isSpace x w hx]
    exact litCI_append p hp (x.dropWhile isSpace) w hw

/-- `wsReq` (a `\s+`-prefixed whitespace-free literal) ignores trailing
whitespace. -/
theorem wsReq_append (p : Str) (hp : p.all (fun c => !(isSpace c)) = true)
    (hpn : ¬(p = [])) (x w : Str) (hw : w.all isSpace = true) :
    wsReq p (x ++ w) = (wsReq p x).map (· ++ w) := by
  cases x with
  | nil =>
    show wsReq p w = none
    cases w with
    | nil => rfl
    | cons c cs =>
      rw [List.all_cons, Bool.and_eq_true] at hw
      show (if isSpace c then litCI p ((c :: cs).dropWhile isSpace) else none) = none
      rw [if_pos hw.1, dropWhile_space_of_all (c :: cs) (by simp [List.all_cons, hw.1, hw.2])]
      cases p with
      | nil => exact absurd rfl hpn
      | cons a ps => rfl
  | cons c cs =>
    show (if isSpace c then litCI p (((c :: cs) ++ w).dropWhile isSpace) else none) =
      ((if isSpace c then litCI p ((c :: cs).dropWhile isSpace) else none).map (· ++ w))
    cases hc : isSpace c with
    | false => rfl
    | true =>
      simp only [if_true]
      by_cases hx : (c :: cs).all isSpace = true
      · rw [dropWhile_append_of_all isSpace _ w hx, dropWhile_space_of_all w hw,
          dropWhile_space_of_all _ hx]
        cases p with
        | nil => exact absurd rfl hpn
        | cons a ps => rfl
      · rw [dropWhile_append_of_not_all isSpace _ w hx]
        exact litCI_append p hp _ w hw

theorem kaggleTail_append (x w : Str) (hw : w.all isSpace = true) :
    kaggleTail (x ++ w) = kaggleTail x := by
  unfold kaggleTail
  rw [wsReq_append ("detected".data) (by decide) (by decide) x w hw]
  cases h1 : wsReq ("detected".data) x with
  | none => rfl
  | some s1 =>
  dsimp only [Option.map_some']
  rw [wsReq_append ("involving".data) (by decide) (by decide) s1 w hw]
  cases h2 : wsReq ("involving".data) s1 with
  | none => rfl
  | some s2 =>
  dsimp only [Option.map_some']
  rw [wsReq_append ("cross-border".data) (by decide) (by decide) s2 w hw]
  cases h3 : wsReq ("cross-border".data) s2 with
  | none => rfl
  | some s3 =>
  dsimp only [Option.map_some']
  rw [wsReq_append ("entities,".data) (by decide) (by decide) s3 w hw]
  cases h4 : wsReq ("entities,".data) s3 with
  | none => rfl
  | some s4 =>
  dsimp only [Option.map_some']
  rw [wsOpt_append ("automated".data) (by decide) (by decide) s4 w hw]
  cases h5 : wsOpt ("automated".data) s4 with
  | none => rfl
  | some s5 =>
  dsimp only [Option.map_some']
  rw [wsReq_append ("alert".data) (by decide) (by decide) s5 w hw]
  cases h6 : wsReq ("alert".data) s5 with
  | none => rfl
  | some s6 =>
  dsimp only [Option.map_some']
  rw [wsReq_append ("triggered.".data) (by decide) (by decide) s6 w hw]
  cases h7 : wsReq ("triggered.".data) s6 with
  | none => rfl
  | some s7 =>
  dsimp only [Option.map_some']
  rw [wsOpt_append ("|".data) (by decide) (by decide) s7 w hw]
  cases h8 : wsOpt ("|".data) s7 with
  | none => rfl
  | some s8 =>
  dsimp only [Option.map_some']
  rw [wsOpt_append ("amount:".data) (by decide) (by decide) s8 w hw]
  cases h9 : wsOpt ("amount:".data) s8 with
  | none => rfl
  | some s9 =>
  dsimp only [Option.map_some']
  rw [wsOpt_append ("$".data) (by decide) (by decide) s9 w hw]
  cases h10 : wsOpt ("$".data) s9 with
  | none => rfl
  | some s10 =>
  dsimp only [Option.map_some']
  rw [takeWhile_class_append (fun c => c.isDigit || c = ',')
    (fun c hc => space_not_amtchar c hc) s10 w hw]

theorem wsReq_ws_none (p : Str) (hpn : ¬(p = [])) (s : Str)
    (hs : s.all isSpace = true) : wsReq p s = none := by
  cases s with
  | nil => rfl
  | cons c cs =>
    rw [List.all_cons, Bool.and_eq_true] at hs
    show (if isSpace c then litCI p ((c :: cs).dropWhile isSpace) else none) = none
    rw [if_pos hs.1,
      dropWhile_space_of_all (c :: cs) (by simp [List.all_cons, hs.1, hs.2])]
    cases p with
    | nil => exact absurd rfl hpn
    | cons a ps => rfl

theorem kaggleTail_ws_none (s : Str) (hs : s.all isSpace = true) :
    kaggleTail s = none := by
  unfold kaggleTail
  rw [wsReq_ws_none ("detected".data) (by decide) s hs]

theorem kaggleLazy_ws_none (w : Str) (hw : w.all isSpace = true) :
    ∀ acc, kaggleLazy acc w = none := by
  induction w with
  | nil => intro acc; rfl
  | cons c cs ih =>
    intro acc
    rw [List.all_cons, Bool.and_eq_true] at hw
    conv_lhs => rw [kaggleLazy.eq_def]
    dsimp only
    rw [kaggleTail_ws_none (c :: cs) (by simp [List.all_cons, hw.1, hw.2])]
    dsimp only
    by_cases hc : c = '\n'
    · rw [if_pos hc]
    · rw [if_neg hc]
      exact ih hw.2 _

theorem kaggleLazy_append (w : Str) (hw : w.all isSpace = true) :
    ∀ (x : Str) (acc : Str), kaggleLazy acc (x ++ w) = kaggleLazy acc x := by
  intro x
  induction x with
  | nil =>
    intro acc
    rw [List.nil_append, kaggleLazy_ws_none w hw acc]
    rfl
  | cons c cs ih =>
    intro acc
    rw [List.cons_append]
    conv_lhs => rw [kaggleLazy.eq_def]
    conv_rhs => rw [kaggleLazy.eq_def]
    dsimp only
    rw [show kaggleTail (c :: (cs ++ w)) = kaggleTail (c :: cs) from by
      rw [← List.cons_append]
      exact kaggleTail_append (c :: cs) w hw]
    cases kaggleTail (c :: cs) with
    | some amt => rfl
    | none =>
      dsimp only
      by_cases hc : c = '\n'
      · rw [if_pos hc, if_pos hc]
      · rw [if_neg hc, if_neg hc]
        exact ih (c :: acc)

theorem wsLazy_ws_none (w : Str) (hw : w.all isSpace = true) : wsLazy w = none := by
  induction w with
  | nil => rfl
  | cons c cs ih =>
    rw [List.all_cons, Bool.and_eq_true] at hw
    unfold wsLazy
    rw [if_pos hw.1, ih hw.2]
    exact kaggleLazy_ws_none (c :: cs) (by simp [List.all_cons, hw.1, hw.2]) []

theorem wsLazy_append (w : Str) (hw : w.all isSpace = true) :
    ∀ x : Str, wsLazy (x ++ w) = wsLazy x := by
  intro x
  induction x with
  | nil =>
    rw [List.nil_append, wsLazy_ws_none w hw]
    rfl
  | cons c cs ih =>
    rw [List.cons_append]
    unfold wsLazy
    have hlz : kaggleLazy [] (c :: (cs ++ w)) = kaggleLazy [] (c :: cs) := by
      rw [← List.cons_append]
      exact kaggleLazy_append w hw (c :: cs) []
    by_cases hc : isSpace c = true
    · rw [if_pos hc, if_pos hc, ih, hlz]
    · rw [if_neg hc, if_neg hc, hlz]

theorem matchDateK_append (x w : Str) (hw : w.all isSpace = true) :
    matchDateK (x ++ w) = (matchDateK x).map (fun p => (p.1, p.2 ++ w)) := by
  unfold matchDateK
  rw [takeDigitsN_append 4 x w hw]
  cases h1 : takeDigitsN 4 x with
  | none => rfl
  | some p1 =>
  obtain ⟨y, s1⟩ := p1
  dsimp only [Option.map_some']
  rw [litCI_append ("-".data) (by decide) s1 w hw]
  cases h2 : litCI ("-".data) s1 with
  | none => rfl
  | some s2 =>
  dsimp only [Option.map_some']
  rw [takeDigitsN_append 2 s2 w hw]
  cases h3 : takeDigitsN 2 s2 with
  | none => rfl
  | some p3 =>
  obtain ⟨m, s3⟩ := p3
  dsimp only [Option.map_some']
  rw [litCI_append ("-".data) (by decide) s3 w hw]
  cases h4 : litCI ("-".data) s3 with
  | none => rfl
  | some s4 =>
  dsimp only [Option.map_some']
  rw [takeDigitsN_append 2 s4 w hw]
  cases h5 : takeDigitsN 2 s4 with
  | none => rfl
  | some p5 =>
  obtain ⟨d, s5⟩ := p5
  rfl

theorem matchCaseId_append (x w : Str) (hw : w.all isSpace = true) :
    matchCaseId (x ++ w) = (matchCaseId x).map (fun p => (p.1, p.2 ++ w)) := by
  unfold matchCaseId
  rw [litCI_append ("fc".data) (by decide) x w hw]
  cases h1 : litCI ("fc".data) x with
  | none => rfl
  | some s1 =>
  dsimp only [Option.map_some']
  rw [takeDigitsN_append 6 s1 w hw]
  cases h2 : takeDigitsN 6 s1 with
  | none => rfl
  | some p2 =>
  obtain ⟨ds, r⟩ := p2
  dsimp only [Option.map_some']
  have hx : ∃ a b t, x = a :: b :: t := by
    cases x with
    | nil => simp [litCI] at h1
    | cons a xs =>
      cases xs with
      | nil =>
        exfalso
        rw [show ("fc".data : Str) = ['f', 'c'] from rfl] at h1
        by_cases hca : chEqCI 'f' a = true
        · simp [litCI, hca] at h1
        · simp [litCI, hca] at h1
      | cons b t => exact ⟨a, b, t, rfl⟩
  obtain ⟨a, b, t, rfl⟩ := hx
  rfl

theorem caseIdGroup_append (x w : Str) (hw : w.all isSpace = true) :
    caseIdGroup (x ++ w) = (caseIdGroup x).map (fun p => (p.1, p.2 ++ w)) := by
  unfold caseIdGroup
  rw [wsOpt_append ("id".data) (by decide) (by decide) x w hw]
  cases h1 : wsOpt ("id".data) x with
  | none => rfl
  | some s =>
  dsimp only [Option.map_some']
  cases s with
  | nil =>
    rw [List.nil_append]
    cases w with
    | nil => rfl
    | cons c cs =>
      rw [List.all_cons, Bool.and_eq_true] at hw
      dsimp only
      rw [if_pos hw.1,
        dropWhile_space_of_all (c :: cs) (by simp [List.all_cons, hw.1, hw.2])]
      rfl
  | cons c cs =>
    rw [List.cons_append]
    dsimp only
    by_cases hc : isSpace c = true
    · rw [if_pos hc, if_pos hc]
      by_cases hall : (c :: cs).all isSpace = true
      · rw [show c :: (cs ++ w) = (c :: cs) ++ w from rfl,
          dropWhile_append_of_all isSpace _ w hall, dropWhile_space_of_all w hw,
          dropWhile_space_of_all _ hall]
        rfl
      · rw [show c :: (cs ++ w) = (c :: cs) ++ w from rfl,
          dropWhile_append_of_not_all isSpace _ w hall]
        exact matchCaseId_append _ w hw
    · rw [if_neg hc, if_neg hc]
      rfl

theorem kaggleSearch_append (x w : Str) (hw : w.all isSpace = true) :
    kaggleSearch (x ++ w) = kaggleSearch x := by
  unfold kaggleSearch
  dsimp only
  by_cases hall : x.all isSpace = true
  · rw [dropWhile_append_of_all isSpace x w hall, dropWhile_space_of_all w hw,
      dropWhile_space_of_all x hall]
  · rw [dropWhile_append_of_not_all isSpace x w hall]
    rw [takeWhile_class_append Char.isDigit (fun c hc => space_not_digit c hc)
      (x.dropWhile isSpace) w hw,
      dropWhile_class_append Char.isDigit (fun c hc => space_not_digit c hc)
      (x.dropWhile isSpace) w hw]
    by_cases hd : (x.dropWhile isSpace).takeWhile Char.isDigit = []
    · rw [if_pos hd, if_pos hd]
    · rw [if_neg hd, if_neg hd]
      rw [wsOpt_append ("|".data) (by decide) (by decide) _ w hw]
      cases h1 : wsOpt ("|".data) ((x.dropWhile isSpace).dropWhile Char.isDigit) with
      | none => rfl
      | some s2 =>
      dsimp only [Option.map_some']
      by_cases h2 : s2.all isSpace = true
      · rw [dropWhile_append_of_all isSpace s2 w h2, dropWhile_space_of_all w hw,
          dropWhile_space_of_all s2 h2]
      · rw [dropWhile_append_of_not_all isSpace s2 w h2, matchDateK_append _ w hw]
        cases h3 : matchDateK (s2.dropWhile isSpace) with
        | none => rfl
        | some p3 =>
        obtain ⟨date, s3⟩ := p3
        dsimp only [Option.map_some']
        rw [wsOpt_append ("|".data) (by decide) (by decide) s3 w hw]
        cases h4 : wsOpt ("|".data) s3 with
        | none => rfl
        | some s4 =>
        dsimp only [Option.map_some']
        rw [wsOpt_append ("case".data) (by decide) (by decide) s4 w hw]
        cases h5 : wsOpt ("case".data) s4 with
        | none => rfl
        | some s5 =>
        dsimp only [Option.map_some']
        rw [caseIdGroup_append s5 w hw]
        cases h6 : caseIdGroup s5 with
        | none => rfl
        | some p6 =>
        obtain ⟨cid, s6⟩ := p6
        dsimp only [Option.map_some']
        rw [wsOpt_append ("|".data) (by decide) (by decide) s6 w hw]
        cases h7 : wsOpt ("|".data) s6 with
        | none => rfl
        | some s7 =>
        dsimp only [Option.map_some']
        rw [wsLazy_append w hw s7]

theorem rstrip_decomp (x : Str) :
    x = rstrip x ++ (x.reverse.takeWhile isSpace).reverse ∧
      ((x.reverse.takeWhile isSpace).reverse).all isSpace = true := by
  constructor
  · have h1 : x.reverse.takeWhile isSpace ++ x.reverse.dropWhile isSpace = x.reverse :=
      List.takeWhile_append_dropWhile isSpace x.reverse
    have h2 := congrArg List.reverse h1
    rw [List.reverse_append, List.reverse_reverse] at h2
    exact h2.symm
  · rw [List.all_reverse, List.all_eq_true]
    intro a ha
    exact List.mem_takeWhile_imp ha

theorem kaggleSearch_rstrip (x : Str) :
    kaggleSearch (rstrip x) = kaggleSearch x := by
  conv_rhs => rw [(rstrip_decomp x).1]
  exact (kaggleSearch_append (rstrip x) _ (rstrip_decomp x).2).symm

theorem rstrip_eq_nil_iff (x : Str) : rstrip x = [] ↔ x.all isSpace = true := by
  unfold rstrip
  rw [List.reverse_eq_nil_iff, List.dropWhile_eq_nil_iff, ← List.all_reverse,
    List.all_eq_true]

theorem dropWhile_idem (p : Char → Bool) (l : Str) :
    (l.dropWhile p).dropWhile p = l.dropWhile p := by
  induction l with
  | nil => rfl
  | cons c cs ih =>
    rw [List.dropWhile_cons]
    cases hc : p c with
    | true => simpa using ih
    | false =>
      rw [if_neg (by simp), List.dropWhile_cons, hc, if_neg (by simp)]

theorem rstrip_idem (x : Str) : rstrip (rstrip x) = rstrip x := by
  unfold rstrip
  rw [List.reverse_reverse, dropWhile_idem]

theorem mem_rstrip (c : Char) (x : Str) (h : c ∈ rstrip x) : c ∈ x := by
  unfold rstrip at h
  rw [List.mem_reverse] at h
  exact List.mem_reverse.mp ((List.dropWhile_sublist isSpace).mem h)

theorem lstrip_fix_head (x : Str) (h : lstrip x = x) :
    x = [] ∨ ∃ c t, x = c :: t ∧ isSpace c = false := by
  cases x with
  | nil => exact Or.inl rfl
  | cons c t =>
    cases hc : isSpace c with
    | false => exact Or.inr ⟨c, t, rfl, hc⟩
    | true =>
      exfalso
      unfold lstrip at h
      rw [List.dropWhile_cons, hc] at h
      simp only [if_true] at h
      have hle : (t.dropWhile isSpace).length ≤ t.length :=
        (List.dropWhile_sublist isSpace).length_le
      rw [h] at hle
      simp at hle

theorem rstrip_cons (c : Char) (cs : Str) :
    rstrip (c :: cs) =
      if cs.all isSpace = true then (if isSpace c = true then [] else [c])
      else c :: rstrip cs := by
  unfold rstrip
  rw [List.reverse_cons]
  by_cases hcs : cs.all isSpace = true
  · rw [if_pos hcs,
      dropWhile_append_of_all isSpace cs.reverse [c] (by rw [List.all_reverse]; exact hcs)]
    rw [List.dropWhile_cons]
    cases hc : isSpace c with
    | true => rw [if_pos rfl]; rfl
    | false =>
      simp only [if_false, Bool.false_eq_true]
      rfl
  · rw [if_neg hcs,
      dropWhile_append_of_not_all isSpace cs.reverse [c]
        (by rw [List.all_reverse]; exact hcs)]
    rw [List.reverse_append]
    rfl

theorem lstrip_rstrip (x : Str) (h : lstrip x = x) :
    lstrip (rstrip x) = rstrip x := by
  rcases lstrip_fix_head x h with rfl | ⟨c, t, rfl, hc⟩
  · rfl
  · rw [rstrip_cons]
    by_cases ht : t.all isSpace = true
    · rw [if_pos ht, if_neg (by rw [hc]; exact Bool.false_ne_true)]
      unfold lstrip
      rw [List.dropWhile_cons, hc]
      rfl
    · rw [if_neg ht]
      unfold lstrip
      rw [List.dropWhile_cons, hc]
      rfl

theorem splitNl_no_nl (s : Str) (h : ¬('\n' ∈ s)) : splitNl s = [s] := by
  induction s with
  | nil => rfl
  | cons c cs ih =>
    have hc : ¬(c = '\n') := fun hh => h (by rw [hh]; exact List.mem_cons_self _ _)
    have hcs : ¬('\n' ∈ cs) := fun hh => h (List.mem_cons_of_mem _ hh)
    exact splitNl_cons_of_ne c cs cs [] hc (ih hcs)

theorem kaggleSearch_some_not_all_space (line : Str) (gs : KaggleGroups)
    (hk : kaggleSearch line = some gs) : ¬(line.all isSpace = true) := by
  intro hall
  unfold kaggleSearch at hk
  dsimp only at hk
  rw [dropWhile_space_of_all line hall] at hk
  simp at hk

/-- C9 (amended): for a line matching the tabular-alert grammar that
contains no newline, has *no leading whitespace*, and has a convertible
amount group, the parser produces a single alert Event `e` with
`raw_log = rstrip line`, and re-running the whole core on `e.raw_log`
returns exactly `[e]` (same timestamp, event type, raw_log and details)
with summary `{1 alert, amount, 1 line, 0 unmatched, "KAGGLE"}`.  A line
*with* leading whitespace loses it from `raw_log` in the second run
(the counterexample), so the round trip is exact only up to that. -/
theorem C9_amended (line : Str) (gs : KaggleGroups) (amt : ℤ)
    (hnl : ¬('\n' ∈ line))
    (hlead : lstrip line = line)
    (hk : kaggleSearch line = some gs)
    (hamt : parseIntCommas gs.amountStr = some amt) :
    parse_kaggle_format [line] =
      some [{ timestamp := gs.date ++ " 00:00:00".data
              event_type := ALERT_TYPE_STR
              raw_log := rstrip line
              details := .alert gs.date gs.case_id (pstrip gs.alert_type) amt }] ∧
    extract_causal_chain (rstrip line) =
      some { causal_chain :=
               [{ timestamp := gs.date ++ " 00:00:00".data
                  event_type := ALERT_TYPE_STR
                  raw_log := rstrip line
                  details := .alert gs.date gs.case_id (pstrip gs.alert_type) amt }]
             summary := { total_alerts := 1, total_amount_at_risk := amt,
                          total_lines := 1, unmatched_lines := 0,
                          detected_format := "KAGGLE".data } } := by
  have hnall : ¬(line.all isSpace = true) := kaggleSearch_some_not_all_space line gs hk
  have hpb : ¬(pstrip line = []) := fun h => hnall ((pstrip_eq_nil_iff line).mp h)
  have hks : kaggleSearch (rstrip line) = some gs := by
    rw [kaggleSearch_rstrip line]; exact hk
  have hpart1 : parse_kaggle_format [line] =
      some [{ timestamp := gs.date ++ " 00:00:00".data
              event_type := ALERT_TYPE_STR
              raw_log := rstrip line
              details := .alert gs.date gs.case_id (pstrip gs.alert_type) amt }] := by
    unfold parse_kaggle_format
    rw [parseKaggleGo_cons_alert 1 line [] gs amt hpb hk hamt]
    rfl
  have hlr : lstrip (rstrip line) = rstrip line := lstrip_rstrip line hlead
  have hrr : pstrip (rstrip line) = rstrip line := by
    unfold pstrip
    rw [hlr, rstrip_idem]
  have hnl2 : ¬('\n' ∈ rstrip line) := fun h => hnl (mem_rstrip _ _ h)
  have hsplit : splitNl (pstrip (rstrip line)) = [rstrip line] := by
    rw [hrr]
    exact splitNl_no_nl _ hnl2
  have hpb2 : ¬(pstrip (rstrip line) = []) := by
    rw [hrr]
    intro h
    exact hnall ((rstrip_eq_nil_iff line).mp h)
  refine ⟨hpart1, ?_⟩
  unfold extract_causal_chain
  dsimp only
  rw [hsplit]
  have hparse2 : parse_kaggle_format [rstrip line] =
      some [{ timestamp := gs.date ++ " 00:00:00".data
              event_type := ALERT_TYPE_STR
              raw_log := rstrip line
              details := .alert gs.date gs.case_id (pstrip gs.alert_type) amt }] := by
    unfold parse_kaggle_format
    rw [parseKaggleGo_cons_alert 1 (rstrip line) [] gs amt (hrr ▸ hpb2) hks hamt]
    rw [rstrip_idem]
    rfl
  have hdet : detectKaggle [rstrip line] = true := by
    unfold detectKaggle
    simp [hks]
  unfold parsedEventsOf
  rw [hdet]
  simp only [if_true]
  rw [hparse2]
  unfold buildResult detectKaggle detectAmlsim
  simp only [Option.map_some', List.take, List.any_cons, List.any_nil, hks,
    Option.isSome_some, Bool.true_or, sortEvents, insertEv, List.filter,
    detailsAmount, List.filterMap, List.length_cons, List.length_nil]
  norm_num [ALERT_TYPE_STR]

/-- Witness for C9: the amended round-trip law applied to the concrete
Scenario-1-style line `kLineA`. -/
theorem C9_amended_witness :
    parse_kaggle_format [kLineA] =
      some [{ timestamp := ("2024-01-05".data : Str) ++ " 00:00:00".data
              event_type := ALERT_TYPE_STR
              raw_log := rstrip kLineA
              details := .alert ("2024-01-05".data) ("FC000123".data)
                (pstrip ("Structuring".data)) 10000 }] ∧
    extract_causal_chain (rstrip kLineA) =
      some { causal_chain :=
               [{ timestamp := ("2024-01-05".data : Str) ++ " 00:00:00".data
                  event_type := ALERT_TYPE_STR
                  raw_log := rstrip kLineA
                  details := .alert ("2024-01-05".data) ("FC000123".data)
                    (pstrip ("Structuring".data)) 10000 }]
             summary := { total_alerts := 1, total_amount_at_risk := 10000,
                          total_lines := 1, unmatched_lines := 0,
                          detected_format := "KAGGLE".data } } :=
  C9_amended kLineA
    ⟨("2024-01-05".data), ("FC000123".data), ("Structuring".data), ("10,000".data)⟩
    10000 (by decide) (by decide) (by decide) (by decide)

end AuditTrailGPT
